import Mathlib

/-!
# Verification of the celestask time-tracking subsystem

Shallow embedding of the time-entry routes of `src/unnamed/part_007`
(the Express router for `/api/time-entries`) and of the duration codec
`src/client/src/utils/timeFormat.ts`.

Conventions of the embedding:
* Timestamps are ISO-8601 strings with millisecond precision in the source;
  they are modeled as `Int` epoch milliseconds.  `calculateDuration` in the
  source computes `Math.round((end - start) * 1000)`; since `end - start`
  is an integer number of milliseconds this is exactly `(end - start) * 1000`
  microseconds, with no rounding.
* SQLite rows become Lean structures; the `time_entries` table becomes a
  `List TimeEntry` inside `Store`, and the `tasks` / `projects` tables become
  lists of `Task` / `Project` records (only the columns the routes read).
* `is_running = 1` becomes `isRunning = true`; SQL `NULL` becomes `none`.
* The JavaScript falsy coercion `finalDurationUs || null` in the manual-entry
  handlers is modeled faithfully: a computed or supplied duration of `0` is
  stored as `none`.
* Each route handler either returns data or an error object; handlers are
  modeled as functions `Store → Store × Except ApiError α`: the first
  component is the database state the handler leaves behind (unchanged on the
  error paths, exactly as in the source).
* The task and project `/start`, `/stop` and manual-entry handlers are
  identical up to the entity table they check, so they are embedded once,
  parameterized by `EntityType` (the existence check dispatches on it).
* In the source, `start` captures `new Date()` twice (once inside
  `stopRunningTimers`, once for the inserted row); both happen inside one
  request and are modeled as a single instant `now`.
-/

deriving instance DecidableEq for Except

namespace Celestask

/-- The `entity_type` column of `time_entries`: `'task'` or `'project'`. -/
inductive EntityType where
  | task
  | project
deriving DecidableEq, Repr

/-- One row of the `time_entries` table (the columns the routes read/write).
`person_id`, `description`, `created_at` and `updated_at` carry no logic in
any claim and are omitted. -/
structure TimeEntry where
  id : Nat
  entityType : EntityType
  entityId : Nat
  /-- `start_time`, epoch milliseconds. -/
  startTime : Int
  /-- `end_time`, epoch milliseconds, or `NULL`. -/
  endTime : Option Int
  /-- `duration_us`, microseconds, or `NULL`. -/
  durationUs : Option Int
  /-- `is_running = 1`. -/
  isRunning : Bool
deriving DecidableEq, Repr

/-- One row of the `tasks` table (columns used by the time routes). -/
structure Task where
  id : Nat
  parentTaskId : Option Nat
  projectId : Nat
deriving DecidableEq, Repr

/-- One row of the `projects` table (columns used by the time routes). -/
structure Project where
  id : Nat
  parentProjectId : Option Nat
deriving DecidableEq, Repr

/-- The database state seen by the time-entry routes. -/
structure Store where
  entries : List TimeEntry
  tasks : List Task
  projects : List Project
deriving DecidableEq, Repr

/-- Error taxonomy of the route handlers (`NOT_FOUND` / `VALIDATION_ERROR`). -/
inductive ApiError where
  | notFound
  | validation
deriving DecidableEq, Repr

/-- `calculateDuration(startTime, endTime)` from `part_007` lines 7-11:
`Math.round((end - start) * 1000)`.  `end - start` is integer milliseconds,
so the result is exactly `(end - start) * 1000` microseconds. -/
def calculateDuration (startMs endMs : Int) : Int :=
  (endMs - startMs) * 1000

/-- The SQL predicate `entity_type = ? AND entity_id = ?`. -/
def matchesEntity (e : TimeEntry) (et : EntityType) (eid : Nat) : Prop :=
  e.entityType = et ∧ e.entityId = eid

instance (e : TimeEntry) (et : EntityType) (eid : Nat) :
    Decidable (matchesEntity e et eid) := by
  unfold matchesEntity; infer_instance

/-- The `UPDATE` performed when a running entry is stopped:
`SET end_time = ?, duration_us = ?, is_running = 0`. -/
def stopEntry (now : Int) (e : TimeEntry) : TimeEntry :=
  { e with
    endTime := some now
    durationUs := some (calculateDuration e.startTime now)
    isRunning := false }

/-- `stopRunningTimers(entityType, entityId)` from `part_007` lines 14-40
(without `excludeId`, which no caller passes): every entry of the entity with
`is_running = 1` gains `end_time`/`duration_us` and is cleared. -/
def stopRunningTimers (et : EntityType) (eid : Nat) (now : Int)
    (s : Store) : Store :=
  { s with
    entries := s.entries.map fun e =>
      if matchesEntity e et eid ∧ e.isRunning = true then stopEntry now e else e }

/-- The existence check at the top of the start / manual-entry handlers:
`SELECT id FROM tasks WHERE id = ?` resp. `... FROM projects ...`. -/
def entityExists (s : Store) (et : EntityType) (eid : Nat) : Prop :=
  match et with
  | .task => ∃ t ∈ s.tasks, t.id = eid
  | .project => ∃ p ∈ s.projects, p.id = eid

instance (s : Store) (et : EntityType) (eid : Nat) :
    Decidable (entityExists s et eid) := by
  unfold entityExists; cases et <;> exact List.decidableBEx _ _

/-- `POST /api/time-entries/task/:taskId/start` (lines 147-185) and its
project twin (lines 516-554): 404 if the entity row is missing, otherwise
stop all running timers of the entity and insert a fresh running entry. -/
def startTimer (et : EntityType) (eid newId : Nat) (now : Int)
    (s : Store) : Store × Except ApiError TimeEntry :=
  if entityExists s et eid then
    let s1 := stopRunningTimers et eid now s
    let e : TimeEntry :=
      { id := newId, entityType := et, entityId := eid, startTime := now,
        endTime := none, durationUs := none, isRunning := true }
    ({ s1 with entries := s1.entries ++ [e] }, .ok e)
  else
    (s, .error .notFound)

/-- `POST /api/time-entries/task/:taskId/stop` (lines 188-228) and its
project twin (lines 557-597): 404 ("no running timer") if no running entry
exists, otherwise close the found entry and return it. -/
def stopTimer (et : EntityType) (eid : Nat) (now : Int)
    (s : Store) : Store × Except ApiError TimeEntry :=
  match s.entries.find? (fun e =>
      decide (matchesEntity e et eid ∧ e.isRunning = true)) with
  | none => (s, .error .notFound)
  | some r =>
      ({ s with entries := s.entries.map fun e =>
          if e.id = r.id then stopEntry now e else e },
       .ok (stopEntry now r))

/-- The duration derivation of the manual-entry handlers
(`POST /api/time-entries/task/:taskId` lines 251-257 and the project twin
lines 620-626): explicit `duration_us` wins, else `duration_minutes`
converted, else `end_time - start_time` when an end time is present. -/
def deriveDuration (startMs : Int) (endMs? durationUs? durationMinutes? :
    Option Int) : Option Int :=
  let fd1 : Option Int :=
    match durationUs?, durationMinutes? with
    | none, some m => some (m * 60 * 1000000)
    | x, _ => x
  match endMs?, fd1 with
  | some e, none => some (calculateDuration startMs e)
  | _, x => x

/-- The JavaScript insertion value `finalDurationUs || null`: a duration of
`0` is falsy and is stored as `NULL`. -/
def falsyToNull (d? : Option Int) : Option Int :=
  match d? with
  | some d => if d = 0 then none else some d
  | none => none

/-- `POST /api/time-entries/task/:taskId` (lines 231-281) and its project
twin (lines 599-650): 404 if the entity row is missing, 400 if `start_time`
is missing, otherwise insert a non-running entry whose duration follows
`deriveDuration`, with `0` coerced to `NULL` by `finalDurationUs || null`. -/
def addManualEntry (et : EntityType) (eid newId : Nat)
    (startMs? endMs? durationUs? durationMinutes? : Option Int)
    (s : Store) : Store × Except ApiError TimeEntry :=
  if entityExists s et eid then
    match startMs? with
    | none => (s, .error .validation)
    | some st =>
        let e : TimeEntry :=
          { id := newId, entityType := et, entityId := eid, startTime := st,
            endTime := endMs?,
            durationUs := falsyToNull
              (deriveDuration st endMs? durationUs? durationMinutes?),
            isRunning := false }
        ({ s with entries := s.entries ++ [e] }, .ok e)
  else
    (s, .error .notFound)

/-! ## Sequences of timer operations (for the running-entry invariant) -/

/-- One `start` or `stop` request, with the wall-clock instant and (for
`start`) the id `crypto.randomUUID()` produced. -/
inductive TimerOp where
  | start (et : EntityType) (eid newId : Nat) (now : Int)
  | stop (et : EntityType) (eid : Nat) (now : Int)
deriving DecidableEq, Repr

/-- The store left behind by one timer request. -/
def applyTimerOp (s : Store) : TimerOp → Store
  | .start et eid newId now => (startTimer et eid newId now s).1
  | .stop et eid now => (stopTimer et eid now s).1

/-- The store left behind by a sequence of timer requests. -/
def runTimerOps (s : Store) (ops : List TimerOp) : Store :=
  ops.foldl applyTimerOp s

/-- A store holding tasks and projects but no time entries yet. -/
def initStore (tasks : List Task) (projects : List Project) : Store :=
  { entries := [], tasks := tasks, projects := projects }

/-- Number of stored entries with `is_running = 1` for one entity. -/
def runningCount (s : Store) (et : EntityType) (eid : Nat) : Nat :=
  s.entries.countP fun e => decide (matchesEntity e et eid ∧ e.isRunning = true)

/-! ## Rollup queries (summary endpoints)

The summary endpoints use SQLite recursive CTEs of the shape

```
WITH RECURSIVE descendants AS (
  SELECT id FROM tasks WHERE parent_task_id = ?
  UNION ALL
  SELECT t.id FROM tasks t INNER JOIN descendants d ON t.parent_task_id = d.id
)
```

`UNION ALL` evaluation generates, for every already-derived row, all rows
joining to it; the output multiset is the level-by-level expansion of the
child relation from the anchor frontier.  We model this generically: a child
function `Nat → List Nat`, a one-step frontier expansion, and a fueled
level-by-level closure.  On acyclic data the CTE terminates; the fuel is the
number of rows of the relevant table, together with an explicit hypothesis
that the frontier is exhausted within that fuel (true for every acyclic
store, decidable on concrete stores). -/

/-- One CTE step: all child rows of a frontier of derived rows
(`UNION ALL`, so duplicates are kept, one copy per parent row). -/
def frontierStep (childFn : Nat → List Nat) (frontier : List Nat) : List Nat :=
  frontier.flatMap childFn

/-- The frontier after `n` CTE steps. -/
def frontierIter (childFn : Nat → List Nat) : Nat → List Nat → List Nat
  | 0, f => f
  | n + 1, f => frontierIter childFn n (frontierStep childFn f)

/-- All rows the recursive part of the CTE derives from `frontier` within
`fuel` steps (level-by-level, concatenated). -/
def cteClosure (childFn : Nat → List Nat) : Nat → List Nat → List Nat
  | 0, _ => []
  | n + 1, frontier =>
      let next := frontierStep childFn frontier
      next ++ cteClosure childFn n next

/-- `SELECT id FROM tasks WHERE parent_task_id = ?`: ids of the direct
child tasks of `id`. -/
def childTasksOf (tasks : List Task) (id : Nat) : List Nat :=
  (tasks.filter fun t => decide (t.parentTaskId = some id)).map (·.id)

/-- `SELECT id FROM projects WHERE parent_project_id = ?`: ids of the direct
child projects of `id`. -/
def childProjectsOf (projects : List Project) (id : Nat) : List Nat :=
  (projects.filter fun p => decide (p.parentProjectId = some id)).map (·.id)

/-- `SELECT te.* FROM time_entries te WHERE te.entity_type = ? AND
te.entity_id = ?` (the `ORDER BY start_time DESC` of the source only affects
presentation order; the store order stands in for it). -/
def entriesFor (s : Store) (et : EntityType) (eid : Nat) : List TimeEntry :=
  s.entries.filter fun e => decide (matchesEntity e et eid)

/-- `entries.reduce((sum, e) => sum + (e.duration_us || 0), 0)`: the settled
direct time of one entity; a `NULL` duration contributes `0`. -/
def directUs (s : Store) (et : EntityType) (eid : Nat) : Int :=
  ((entriesFor s et eid).map fun e => e.durationUs.getD 0).sum

/-- The `descendants` CTE of the task summary (lines 89-97): every task id
strictly below `taskId` in the task tree, with fuel `s.tasks.length`. -/
def taskDescList (s : Store) (taskId : Nat) : List Nat :=
  cteClosure (childTasksOf s.tasks) s.tasks.length [taskId]

/-- The per-descendant loop of the task summary (lines 99-121): each
descendant's direct time is added to `childrenTotalUs` only when it is
`> 0`. -/
def taskChildrenTimeUs (s : Store) (taskId : Nat) : Int :=
  ((taskDescList s taskId).map fun d =>
    let u := directUs s .task d
    if u > 0 then u else 0).sum

/-- The response body of `GET /api/time-entries/task/:taskId/summary`
(the numeric fields the claims are about). -/
structure TaskSummary where
  directTimeUs : Int
  childrenTimeUs : Int
  totalTimeUs : Int
  currentSessionUs : Int
  hasRunningTimer : Bool
deriving DecidableEq, Repr

/-- `GET /api/time-entries/task/:taskId/summary` (lines 68-144). -/
def taskSummary (s : Store) (taskId : Nat) (now : Int) : TaskSummary :=
  let direct := directUs s .task taskId
  let children := taskChildrenTimeUs s taskId
  let running? := (entriesFor s .task taskId).find? (·.isRunning)
  { directTimeUs := direct
    childrenTimeUs := children
    totalTimeUs := direct + children
    currentSessionUs :=
      match running? with
      | some r => calculateDuration r.startTime now
      | none => 0
    hasRunningTimer := (entriesFor s .task taskId).any (·.isRunning) }

/-- The `task_tree` CTE of the project summary (lines 426-437): the anchor
row `SELECT id FROM tasks WHERE id = ?` followed by the recursive expansion;
`SUM(te.duration_us)` over the joined entries ignores `NULL` durations. -/
def taskTreeIds (s : Store) (taskId : Nat) : List Nat :=
  let anchor := (s.tasks.filter fun t => decide (t.id = taskId)).map (·.id)
  anchor ++ cteClosure (childTasksOf s.tasks) s.tasks.length anchor

/-- `COALESCE(SUM(te.duration_us), 0)` over the whole `task_tree` of one
task: the task's full subtree rollup used for the project's own tasks. -/
def taskTreeTotalUs (s : Store) (taskId : Nat) : Int :=
  ((taskTreeIds s taskId).map fun d => directUs s .task d).sum

/-- `SELECT id FROM tasks WHERE project_id = ?`. -/
def tasksOfProject (s : Store) (pid : Nat) : List Nat :=
  (s.tasks.filter fun t => decide (t.projectId = pid)).map (·.id)

/-- The per-task loop of the project summary (lines 425-448): each directly
assigned task's subtree total is added only when it is `> 0`. -/
def projectTasksTimeUs (s : Store) (pid : Nat) : Int :=
  ((tasksOfProject s pid).map fun t =>
    let u := taskTreeTotalUs s t
    if u > 0 then u else 0).sum

/-- The `descendants` CTE of the project summary (lines 450-458). -/
def projDescList (s : Store) (pid : Nat) : List Nat :=
  cteClosure (childProjectsOf s.projects) s.projects.length [pid]

/-- Lines 470-475: `SUM(te.duration_us)` over tasks `t` with
`t.project_id = ?` joined directly with their own entries — no task-tree
recursion for descendant projects' tasks. -/
def subprojectDirectTasksUs (s : Store) (pid : Nat) : Int :=
  ((tasksOfProject s pid).map fun t => directUs s .task t).sum

/-- The per-descendant-project loop of the project summary (lines 460-488):
each descendant project contributes its own direct entries plus the direct
entries of its directly assigned tasks, added only when the sum is `> 0`. -/
def projectSubprojectsTimeUs (s : Store) (pid : Nat) : Int :=
  ((projDescList s pid).map fun d =>
    let u := directUs s .project d + subprojectDirectTasksUs s d
    if u > 0 then u else 0).sum

/-- The response body of `GET /api/time-entries/project/:projectId/summary`
(the numeric fields the claims are about). -/
structure ProjectSummary where
  directTimeUs : Int
  tasksTimeUs : Int
  subprojectsTimeUs : Int
  totalTimeUs : Int
  currentSessionUs : Int
  hasRunningTimer : Bool
deriving DecidableEq, Repr

/-- `GET /api/time-entries/project/:projectId/summary` (lines 397-513). -/
def projectSummary (s : Store) (pid : Nat) (now : Int) : ProjectSummary :=
  let direct := directUs s .project pid
  let tasksTime := projectTasksTimeUs s pid
  let subTime := projectSubprojectsTimeUs s pid
  let running? := (entriesFor s .project pid).find? (·.isRunning)
  { directTimeUs := direct
    tasksTimeUs := tasksTime
    subprojectsTimeUs := subTime
    totalTimeUs := direct + tasksTime + subTime
    currentSessionUs :=
      match running? with
      | some r => calculateDuration r.startTime now
      | none => 0
    hasRunningTimer := (entriesFor s .project pid).any (·.isRunning) }

/-! ## Spec-side rollup definitions

For the refinement claims about the rollup algorithm, the spec's recursive
formulas are formalized separately (named `spec...`) and compared with the
route embeddings above. -/

/-- Generic recursive rollup `g x + Σ over children (recursively)`, with
fuel bounding the recursion depth. -/
def specRoll (childFn : Nat → List Nat) (g : Nat → Int) : Nat → Nat → Int
  | 0, x => g x
  | n + 1, x => g x + ((childFn x).map (specRoll childFn g n)).sum

/-- Modelled from the spec: `taskTotal(id) = directUs(task, id) +
Σ taskTotal(childId) for childId in children(id)` (spec §4.4, task
algorithm), with recursion fuel `s.tasks.length`. -/
def specTaskTotal (s : Store) (taskId : Nat) : Int :=
  specRoll (childTasksOf s.tasks) (fun d => directUs s .task d)
    s.tasks.length taskId

/-- Modelled from the spec: `projectTotal(id) = directUs(project, id) +
Σ taskTotal(t) for t in tasksOf(id) + Σ projectTotal(c) for c in
childProjects(id)` (spec §4.4, project algorithm), with project recursion
fuel as an argument. -/
def specProjectTotal (s : Store) : Nat → Nat → Int
  | 0, pid =>
      directUs s .project pid
        + ((tasksOfProject s pid).map fun t => specTaskTotal s t).sum
  | n + 1, pid =>
      directUs s .project pid
        + ((tasksOfProject s pid).map fun t => specTaskTotal s t).sum
        + ((childProjectsOf s.projects pid).map (specProjectTotal s n)).sum

/-- The per-entry shape invariant of the spec's data model (§3):
`end_time` absent iff running, `duration_us` absent iff running. -/
def EntryInv (e : TimeEntry) : Prop :=
  (e.endTime = none ↔ e.isRunning = true)
    ∧ (e.durationUs = none ↔ e.isRunning = true)

instance (e : TimeEntry) : Decidable (EntryInv e) := by
  unfold EntryInv; infer_instance

/-! ## Duration codec (`src/client/src/utils/timeFormat.ts`)

Strings are modeled as their character lists (`String.data`); numbers are
rendered in decimal via `Nat.digits`.  JavaScript's `toFixed(1)` in
`formatDurationUs` rounds the double `seconds + milliseconds/1000` to one
decimal; it is modeled as exact round-half-up on `seconds*1000 +
milliseconds` centiseconds.  (Binary-double noise can move a tie by one
tenth of a second; every statement proved below has at least a full
second of slack, so the modeling difference is immaterial to them.)
`Math.round` in `parseDurationStringToUs` is round-half-up on the exact
rational token sum. -/

/-- `TIME_UNITS` from `timeFormat.ts` (microsecond counts). -/
def MICROSECOND : Nat := 1

def MILLISECOND : Nat := 1000

def SECOND : Nat := 1000000

def MINUTE : Nat := 60000000

def HOUR : Nat := 3600000000

def DAY : Nat := 86400000000

def WEEK : Nat := 604800000000

/-- Average month (30.44 days). -/
def MONTH : Nat := 2629746000000

/-- Average year (365.24 days). -/
def YEAR : Nat := 31556952000000

/-- The result of `breakdownUs`. -/
structure DurationBreakdown where
  years : Nat
  months : Nat
  weeks : Nat
  days : Nat
  hours : Nat
  minutes : Nat
  seconds : Nat
  milliseconds : Nat
  microseconds : Nat
deriving DecidableEq, Repr

/-- `breakdownUs` (lines 72-112): successive integer division of the
absolute value; the claims only use non-negative inputs, so the argument is
the absolute value already. -/
def breakdownUs (us : Nat) : DurationBreakdown :=
  let years := us / YEAR
  let r1 := us % YEAR
  let months := r1 / MONTH
  let r2 := r1 % MONTH
  let weeks := r2 / WEEK
  let r3 := r2 % WEEK
  let days := r3 / DAY
  let r4 := r3 % DAY
  let hours := r4 / HOUR
  let r5 := r4 % HOUR
  let minutes := r5 / MINUTE
  let r6 := r5 % MINUTE
  let seconds := r6 / SECOND
  let r7 := r6 % SECOND
  let milliseconds := r7 / MILLISECOND
  let micros := r7 % MILLISECOND
  { years := years, months := months, weeks := weeks, days := days,
    hours := hours, minutes := minutes, seconds := seconds,
    milliseconds := milliseconds, microseconds := micros }

/-- Decimal rendering of a natural number (`${n}` in the template
strings): big-endian digit characters, `"0"` for zero. -/
def natChars (n : Nat) : List Char :=
  if n = 0 then ['0'] else ((Nat.digits 10 n).map Nat.digitChar).reverse

/-- `formatDurationUs` (lines 137-176), magnitude part, as characters.
`b.seconds + b.milliseconds/1000` with `toFixed(1)` and the `\.0$` strip is
modeled by the rounded centisecond count `t`: the rendered string is
`t/10` (plus `.` and `t%10` when the tenth digit is non-zero). -/
def formatAbsChars (n : Nat) : List Char :=
  let b := breakdownUs n
  if n < SECOND then natChars b.milliseconds ++ ['m', 's']
  else if n < MINUTE then
    if b.milliseconds = 0 then natChars b.seconds ++ ['s']
    else
      let t := (b.seconds * 1000 + b.milliseconds + 50) / 100
      if t % 10 = 0 then natChars (t / 10) ++ ['s']
      else natChars (t / 10) ++ '.' :: Nat.digitChar (t % 10) :: ['s']
  else if n < HOUR then
    natChars b.minutes ++ ['m']
      ++ (if 0 < b.seconds then ' ' :: (natChars b.seconds ++ ['s']) else [])
  else if n < DAY then
    natChars b.hours ++ ['h']
      ++ (if 0 < b.minutes then ' ' :: (natChars b.minutes ++ ['m']) else [])
  else if n < WEEK then
    natChars b.days ++ ['d']
      ++ (if 0 < b.hours then ' ' :: (natChars b.hours ++ ['h']) else [])
  else if n < MONTH then
    natChars b.weeks ++ ['w']
      ++ (if 0 < b.days then ' ' :: (natChars b.days ++ ['d']) else [])
  else if n < YEAR then
    natChars b.months ++ ['m', 'o']
      ++ (if 0 < b.weeks then ' ' :: (natChars b.weeks ++ ['w']) else [])
  else
    natChars b.years ++ ['y']
      ++ (if 0 < b.months then ' ' :: (natChars b.months ++ ['m', 'o']) else [])

/-- `formatDurationUs` (lines 137-176): `"0μs"` for zero, `-` prefix for
negative input, magnitude via `formatAbsChars`. -/
def formatDurationUs (x : Int) : String :=
  if x = 0 then ⟨['0', 'μ', 's']⟩
  else if x < 0 then ⟨'-' :: formatAbsChars x.natAbs⟩
  else ⟨formatAbsChars x.natAbs⟩

/-- `\d` of the token regex. -/
def isDigitChar (c : Char) : Bool := '0' ≤ c && c ≤ '9'

/-- `[a-zμ]` of the token regex. -/
def isUnitChar (c : Char) : Bool := ('a' ≤ c && c ≤ 'z') || c == 'μ'

/-- `\s` (the whitespace the format strings can contain). -/
def isSpaceChar (c : Char) : Bool :=
  c == ' ' || c == '\t' || c == '\n' || c == '\r'

/-- Numeric value of a digit character. -/
def digitVal (c : Char) : Nat := c.toNat - 48

/-- `UNIT_TO_US` (lines 41-61): unit token → microsecond factor. -/
def unitToUs (u : List Char) : Option Nat :=
  if u = ['u', 's'] then some MICROSECOND
  else if u = ['μ', 's'] then some MICROSECOND
  else if u = ['m', 's'] then some MILLISECOND
  else if u = ['s'] then some SECOND
  else if u = ['m'] then some MINUTE
  else if u = ['m', 'i', 'n'] then some MINUTE
  else if u = ['h'] then some HOUR
  else if u = ['h', 'r'] then some HOUR
  else if u = ['d'] then some DAY
  else if u = ['d', 'a', 'y'] then some DAY
  else if u = ['w'] then some WEEK
  else if u = ['w', 'k'] then some WEEK
  else if u = ['w', 'e', 'e', 'k'] then some WEEK
  else if u = ['m', 'o'] then some MONTH
  else if u = ['m', 'o', 'n'] then some MONTH
  else if u = ['m', 'o', 'n', 't', 'h'] then some MONTH
  else if u = ['y'] then some YEAR
  else if u = ['y', 'r'] then some YEAR
  else if u = ['y', 'e', 'a', 'r'] then some YEAR
  else none

/-- Integer part of a digit run (`parseFloat`, integer digits). -/
def tokenIntVal (ds : List Char) : Nat :=
  ds.foldl (fun a c => 10 * a + digitVal c) 0

/-- `parseFloat` of `<digits>[.<digits>]` as an exact rational. -/
def tokenVal (ds fs : List Char) : ℚ :=
  (tokenIntVal ds : ℚ) + (tokenIntVal fs : ℚ) / (10 : ℚ) ^ fs.length

/-- The optional `(?:\.\d+)?` fraction after a digit run: returns the
fraction digits and the remaining input (no fraction if no digit follows
the dot). -/
def readFrac (r : List Char) : List Char × List Char :=
  match r with
  | '.' :: r' =>
      let fds := r'.takeWhile isDigitChar
      if fds = [] then ([], r) else (fds, r'.dropWhile isDigitChar)
  | _ => ([], r)

theorem readFrac_snd_length (r : List Char) :
    (readFrac r).2.length ≤ r.length := by
  rw [readFrac.eq_def]
  split
  · rename_i r'
    simp only []
    split
    · exact le_rfl
    · exact le_trans
        ((List.dropWhile_suffix isDigitChar).sublist.length_le) (by simp)
  · exact le_rfl

/-- The `while ((match = pattern.exec(trimmed)) !== null)` loop of
`parseDurationStringToUs` (lines 322-338): find each
`(\d+(?:\.\d+)?)\s*([a-zμ]+)` group in order, skipping characters that do
not start a match. -/
def scanAux (l : List Char) : List (ℚ × List Char) :=
  match l with
  | [] => []
  | c :: rest =>
      if isDigitChar c then
        let ds := (c :: rest).takeWhile isDigitChar
        let fr := readFrac ((c :: rest).dropWhile isDigitChar)
        let r3 := fr.2.dropWhile isSpaceChar
        let us := r3.takeWhile isUnitChar
        let r4 := r3.dropWhile isUnitChar
        if us = [] then scanAux rest
        else (tokenVal ds fr.1, us) :: scanAux r4
      else scanAux rest
termination_by l.length
decreasing_by
  · simp
  · refine Nat.lt_succ_of_le ?_
    calc ((((c :: rest).dropWhile isDigitChar |> readFrac).2.dropWhile
            isSpaceChar).dropWhile isUnitChar).length
        ≤ (((c :: rest).dropWhile isDigitChar |> readFrac).2.dropWhile
            isSpaceChar).length :=
          (List.dropWhile_suffix isUnitChar).sublist.length_le
      _ ≤ (((c :: rest).dropWhile isDigitChar |> readFrac).2).length :=
          (List.dropWhile_suffix isSpaceChar).sublist.length_le
      _ ≤ ((c :: rest).dropWhile isDigitChar).length :=
          readFrac_snd_length _
      _ ≤ rest.length := by
          rw [List.dropWhile_cons]
          simp only [if_pos (by assumption)]
          exact (List.dropWhile_suffix isDigitChar).sublist.length_le
  · simp

/-- Lowercasing (`input.trim().toLowerCase()`). -/
def lowerChars (l : List Char) : List Char := l.map Char.toLower

/-- Trimming (`input.trim()`). -/
def trimChars (l : List Char) : List Char :=
  ((l.dropWhile isSpaceChar).reverse.dropWhile isSpaceChar).reverse

/-- The accumulation loop of `parseDurationStringToUs`: `null` on the
first unrecognized unit, otherwise `Σ value * unitFactor`. -/
def accumTokens : List (ℚ × List Char) → Option ℚ
  | [] => some 0
  | (v, u) :: rest =>
      match unitToUs u with
      | none => none
      | some m =>
          match accumTokens rest with
          | none => none
          | some acc => some (v * (m : ℚ) + acc)

/-- `Math.round` on a non-negative value: round half up. -/
def jsRound (q : ℚ) : Int := ⌊q + 1 / 2⌋

/-- `parseDurationStringToUs` (lines 317-345). -/
def parseDurationStringToUs (s : String) : Option Int :=
  let t := trimChars (lowerChars s.data)
  if t = [] ∨ t = ['0'] then some 0
  else
    let toks := scanAux t
    if toks = [] then none
    else (accumTokens toks).map jsRound

/-- The unit-step of the coarsest unit `formatDurationUs` uses for a
non-negative microsecond count, read off the branch ladder of
`formatDurationUs` (the claim's round-trip tolerance). -/
def coarseUnitStep (x : Nat) : Nat :=
  if x = 0 then MICROSECOND
  else if x < SECOND then MILLISECOND
  else if x < MINUTE then SECOND
  else if x < HOUR then MINUTE
  else if x < DAY then HOUR
  else if x < WEEK then DAY
  else if x < MONTH then WEEK
  else if x < YEAR then MONTH
  else YEAR

/-! ## Concrete stores used by witnesses and counterexamples -/

/-- A store with one task (id 1) in one project (id 1) and no entries. -/
def demoBase : Store :=
  { entries := [], tasks := [{ id := 1, parentTaskId := none, projectId := 1 }],
    projects := [{ id := 1, parentProjectId := none }] }

/-- A running entry (id 5, started at t = 0) on task 1. -/
def demoOldEntry : TimeEntry :=
  { id := 5, entityType := .task, entityId := 1, startTime := 0,
    endTime := none, durationUs := none, isRunning := true }

/-- `demoBase` with `demoOldEntry` running on task 1. -/
def demoRunning : Store :=
  { demoBase with entries := [demoOldEntry] }

/-- Three tasks in a chain (1 ← 2 ← 3) with direct times 10, 20, 5 μs:
the 3-level synthetic tree of the rollup-additivity scenario. -/
def demoTaskTree : Store :=
  { entries :=
      [{ id := 1, entityType := .task, entityId := 1, startTime := 0,
         endTime := some 0, durationUs := some 10, isRunning := false },
       { id := 2, entityType := .task, entityId := 2, startTime := 0,
         endTime := some 0, durationUs := some 20, isRunning := false },
       { id := 3, entityType := .task, entityId := 3, startTime := 0,
         endTime := some 0, durationUs := some 5, isRunning := false }],
    tasks :=
      [{ id := 1, parentTaskId := none, projectId := 1 },
       { id := 2, parentTaskId := some 1, projectId := 1 },
       { id := 3, parentTaskId := some 2, projectId := 1 }],
    projects := [{ id := 1, parentProjectId := none }] }

/-- Project 1 with direct time 0, task 10 (of project 1) with direct time
100, and child project 2 with direct time 50: the project-rollup
scenario. -/
def demoProjTree : Store :=
  { entries :=
      [{ id := 1, entityType := .task, entityId := 10, startTime := 0,
         endTime := some 0, durationUs := some 100, isRunning := false },
       { id := 2, entityType := .project, entityId := 2, startTime := 0,
         endTime := some 0, durationUs := some 50, isRunning := false }],
    tasks := [{ id := 10, parentTaskId := none, projectId := 1 }],
    projects :=
      [{ id := 1, parentProjectId := none },
       { id := 2, parentProjectId := some 1 }] }

/-- Project 1 with child project 2; task 10 belongs to project 2 and has a
subtask 11 (belonging to unrelated project 3) carrying 7 μs.  The project
summary of project 1 misses the subtask's time because descendant projects'
tasks are rolled up by direct time only. -/
def cexProjStore : Store :=
  { entries :=
      [{ id := 1, entityType := .task, entityId := 11, startTime := 0,
         endTime := some 0, durationUs := some 7, isRunning := false }],
    tasks :=
      [{ id := 10, parentTaskId := none, projectId := 2 },
       { id := 11, parentTaskId := some 10, projectId := 3 }],
    projects :=
      [{ id := 1, parentProjectId := none },
       { id := 2, parentProjectId := some 1 },
       { id := 3, parentProjectId := none }] }

/-- The entry the manual-entry handler stores for a request carrying only a
`start_time`: not running, yet with no `end_time` and no `duration_us`. -/
def cexManualEntry : TimeEntry :=
  { id := 7, entityType := .task, entityId := 1, startTime := 0,
    endTime := none, durationUs := none, isRunning := false }

/-- The entry the manual-entry handler stores for a request whose
`end_time` (50) precedes its `start_time` (100): accepted, with a negative
`duration_us`. -/
def cexNegEntry : TimeEntry :=
  { id := 7, entityType := .task, entityId := 1, startTime := 100,
    endTime := some 50, durationUs := some (-50000), isRunning := false }

/-- `demoRunning` plus a finished entry on task 1 and a running entry on
project 1 (for the running-entry-contributes-zero witness). -/
def demoMixed : Store :=
  { demoBase with
    entries :=
      [{ id := 5, entityType := .task, entityId := 1, startTime := 200,
         endTime := none, durationUs := none, isRunning := true },
       { id := 6, entityType := .task, entityId := 1, startTime := 0,
         endTime := some 100, durationUs := some 100000, isRunning := false },
       { id := 7, entityType := .project, entityId := 1, startTime := 300,
         endTime := none, durationUs := none, isRunning := true }] }

/-! ## Theorems -/

theorem matchesEntity_stopEntry (e : TimeEntry) (now : Int)
    (et : EntityType) (eid : Nat) :
    matchesEntity (stopEntry now e) et eid ↔ matchesEntity e et eid := by
  simp [matchesEntity, stopEntry]

theorem isRunning_stopEntry (e : TimeEntry) (now : Int) :
    (stopEntry now e).isRunning = false := rfl

/-- After `stopRunningTimers et eid`, no running entry for `(et, eid)`
remains. -/
theorem countP_stopRunningTimers_self (s : Store) (et : EntityType)
    (eid : Nat) (now : Int) :
    ((stopRunningTimers et eid now s).entries).countP
      (fun e => decide (matchesEntity e et eid ∧ e.isRunning = true)) = 0 := by
  rw [List.countP_eq_zero]
  intro x hx
  rw [stopRunningTimers] at hx
  simp only [List.mem_map] at hx
  obtain ⟨e, _, rfl⟩ := hx
  by_cases hc : matchesEntity e et eid ∧ e.isRunning = true
  · simp [if_pos hc, stopEntry]
  · simp only [if_neg hc]
    simpa using hc

/-- `stopRunningTimers et eid` does not change the running count of any
other entity. -/
theorem countP_stopRunningTimers_other (s : Store) (et : EntityType)
    (eid : Nat) (now : Int) (et' : EntityType) (eid' : Nat)
    (h : ¬(et' = et ∧ eid' = eid)) :
    ((stopRunningTimers et eid now s).entries).countP
        (fun e => decide (matchesEntity e et' eid' ∧ e.isRunning = true))
      = s.entries.countP
        (fun e => decide (matchesEntity e et' eid' ∧ e.isRunning = true)) := by
  rw [stopRunningTimers]
  simp only [List.countP_map]
  apply List.countP_congr
  intro e _
  simp only [Function.comp]
  by_cases hc : matchesEntity e et eid ∧ e.isRunning = true
  · have h1 : ¬(matchesEntity (stopEntry now e) et' eid'
        ∧ (stopEntry now e).isRunning = true) := by
      rintro ⟨-, hrun⟩
      simp [stopEntry] at hrun
    have h2 : ¬(matchesEntity e et' eid' ∧ e.isRunning = true) := by
      rintro ⟨hm, -⟩
      exact h ⟨hm.1.symm.trans hc.1.1, hm.2.symm.trans hc.1.2⟩
    simp only [if_pos hc]
    simp [h1, h2]
  · simp only [if_neg hc]

theorem runningCount_applyTimerOp (s : Store) (op : TimerOp)
    (h : ∀ et eid, runningCount s et eid ≤ 1) :
    ∀ et eid, runningCount (applyTimerOp s op) et eid ≤ 1 := by
  intro et' eid'
  cases op with
  | start et eid newId now =>
      simp only [applyTimerOp, startTimer]
      split
      · simp only [runningCount, List.countP_append, List.countP_cons,
          List.countP_nil]
        by_cases hsame : et' = et ∧ eid' = eid
        · obtain ⟨rfl, rfl⟩ := hsame
          rw [countP_stopRunningTimers_self]
          simp [matchesEntity]
        · rw [countP_stopRunningTimers_other s et eid now et' eid' hsame]
          have h1 := h et' eid'
          simp only [runningCount] at h1
          have hnot : ¬(et = et' ∧ eid = eid') :=
            fun ⟨a, b⟩ => hsame ⟨a.symm, b.symm⟩
          simpa [matchesEntity, hnot] using h1
      · exact h et' eid'
  | stop et eid now =>
      simp only [applyTimerOp, stopTimer]
      cases hf : s.entries.find? (fun e =>
          decide (matchesEntity e et eid ∧ e.isRunning = true)) with
      | none => exact h et' eid'
      | some r =>
          simp only [runningCount, List.countP_map]
          calc s.entries.countP _ ≤ s.entries.countP
                (fun e => decide (matchesEntity e et' eid'
                  ∧ e.isRunning = true)) := by
                apply List.countP_mono_left
                intro x _ hx
                simp only [Function.comp] at hx
                by_cases hid : x.id = r.id
                · simp only [if_pos hid] at hx
                  simp [stopEntry, matchesEntity] at hx
                · simpa only [if_neg hid] using hx
            _ ≤ 1 := h et' eid'

/-- C1: for every `(entity_type, entity_id)` pair, after any sequence of
start and stop operations (from a store with no time entries), the number
of stored TimeEntry records with `is_running = true` for that pair is 0 or
1, never more. -/
theorem timer_running_invariant (tasks : List Task) (projects : List Project)
    (ops : List TimerOp) (et : EntityType) (eid : Nat) :
    runningCount (runTimerOps (initStore tasks projects) ops) et eid ≤ 1 := by
  suffices h : ∀ s : Store, (∀ et' eid', runningCount s et' eid' ≤ 1) →
      ∀ et' eid', runningCount (runTimerOps s ops) et' eid' ≤ 1 by
    exact h _ (fun _ _ => by simp [runningCount, initStore]) et eid
  induction ops with
  | nil => intro s hs et' eid'; exact hs et' eid'
  | cons op rest ih =>
      intro s hs et' eid'
      have hstep := runningCount_applyTimerOp s op hs
      have : runTimerOps s (op :: rest)
          = runTimerOps (applyTimerOp s op) rest := by
        simp [runTimerOps]
      rw [this]
      exact ih (applyTimerOp s op) hstep et' eid'

/-- C4: starting on an entity that already has a running entry never fails
for that reason: the old running entry is stopped (gaining `end_time` and
`duration_us` equal to its elapsed time) and a new, distinct running entry
is created and returned. -/
theorem start_auto_replace (s : Store) (et : EntityType) (eid newId : Nat)
    (now : Int) (e : TimeEntry)
    (hex : entityExists s et eid)
    (he : e ∈ s.entries) (hm : matchesEntity e et eid)
    (hr : e.isRunning = true)
    (hfresh : ∀ x ∈ s.entries, x.id ≠ newId) :
    ∃ newE : TimeEntry,
      (startTimer et eid newId now s).2 = .ok newE
      ∧ newE.isRunning = true
      ∧ newE.id = newId
      ∧ newE.endTime = none
      ∧ newE.durationUs = none
      ∧ newE ∈ (startTimer et eid newId now s).1.entries
      ∧ newE.id ≠ e.id
      ∧ stopEntry now e ∈ (startTimer et eid newId now s).1.entries
      ∧ (stopEntry now e).endTime = some now
      ∧ (stopEntry now e).durationUs = some ((now - e.startTime) * 1000)
      ∧ (stopEntry now e).isRunning = false := by
  refine ⟨{ id := newId, entityType := et, entityId := eid, startTime := now,
            endTime := none, durationUs := none, isRunning := true },
    ?_, rfl, rfl, rfl, rfl, ?_, ?_, ?_, rfl, rfl, rfl⟩
  · simp [startTimer, if_pos hex]
  · simp [startTimer, if_pos hex]
  · exact fun hcontra => hfresh e he hcontra.symm
  · simp only [startTimer, if_pos hex, stopRunningTimers, List.mem_append]
    left
    refine List.mem_map.mpr ⟨e, he, ?_⟩
    rw [if_pos ⟨hm, hr⟩]

/-- C5: stop fails with `NotFoundError` exactly when no running entry
exists for the entity, leaving the store unchanged; otherwise it closes
the running entry (`end_time := now`, `duration_us := now - start_time`,
`is_running := false`) and returns it. -/
theorem stop_spec (s : Store) (et : EntityType) (eid : Nat) (now : Int) :
    (((stopTimer et eid now s).2 = .error .notFound)
      ↔ ∀ e ∈ s.entries, ¬(matchesEntity e et eid ∧ e.isRunning = true))
    ∧ ((stopTimer et eid now s).2 = .error .notFound
        → (stopTimer et eid now s).1 = s)
    ∧ ((∃ e ∈ s.entries, matchesEntity e et eid ∧ e.isRunning = true)
        → ∃ r, (stopTimer et eid now s).2 = .ok r)
    ∧ (∀ r, (stopTimer et eid now s).2 = .ok r
        → ∃ e ∈ s.entries, matchesEntity e et eid ∧ e.isRunning = true
            ∧ r = stopEntry now e
            ∧ r.endTime = some now
            ∧ r.durationUs = some ((now - e.startTime) * 1000)
            ∧ r.isRunning = false
            ∧ r ∈ (stopTimer et eid now s).1.entries) := by
  cases hf : s.entries.find? (fun e =>
      decide (matchesEntity e et eid ∧ e.isRunning = true)) with
  | none =>
      have hstop : stopTimer et eid now s = (s, .error .notFound) := by
        unfold stopTimer
        rw [hf]
      have hnone : ∀ e ∈ s.entries,
          ¬(matchesEntity e et eid ∧ e.isRunning = true) := by
        intro e he
        have := List.find?_eq_none.mp hf e he
        simpa using this
      rw [hstop]
      refine ⟨⟨fun _ => hnone, fun _ => rfl⟩, fun _ => rfl, ?_, ?_⟩
      · rintro ⟨e, he, hme⟩
        exact absurd hme (hnone e he)
      · intro r hr
        exact absurd hr (by simp)
  | some r =>
      have hmem := List.mem_of_find?_eq_some hf
      have hpred := List.find?_some hf
      simp only [decide_eq_true_eq] at hpred
      have hstop : stopTimer et eid now s
          = ({ s with entries := s.entries.map fun e =>
                if e.id = r.id then stopEntry now e else e },
             .ok (stopEntry now r)) := by
        unfold stopTimer
        rw [hf]
      rw [hstop]
      refine ⟨⟨fun hcontra => absurd hcontra (by simp), fun hall =>
        absurd hpred (hall r hmem)⟩,
        fun hcontra => absurd hcontra (by simp),
        fun _ => ⟨stopEntry now r, rfl⟩, ?_⟩
      intro r' hr'
      have hr'' : r' = stopEntry now r := by
        simpa using hr'.symm
      subst hr''
      refine ⟨r, hmem, hpred.1, hpred.2, rfl, rfl, rfl, rfl, ?_⟩
      exact List.mem_map.mpr ⟨r, hmem, by rw [if_pos rfl]⟩

/-- Witness for C4 at a concrete store: a running entry (id 5) on task 1
exists, `start` succeeds anyway and replaces it. -/
theorem start_auto_replace_witness :
    ∃ newE : TimeEntry,
      (startTimer .task 1 6 1000 demoRunning).2 = .ok newE
      ∧ newE.isRunning = true
      ∧ newE.id = 6
      ∧ newE.endTime = none
      ∧ newE.durationUs = none
      ∧ newE ∈ (startTimer .task 1 6 1000 demoRunning).1.entries
      ∧ newE.id ≠ demoOldEntry.id
      ∧ stopEntry 1000 demoOldEntry
          ∈ (startTimer .task 1 6 1000 demoRunning).1.entries
      ∧ (stopEntry 1000 demoOldEntry).endTime = some 1000
      ∧ (stopEntry 1000 demoOldEntry).durationUs
          = some ((1000 - demoOldEntry.startTime) * 1000)
      ∧ (stopEntry 1000 demoOldEntry).isRunning = false :=
  start_auto_replace demoRunning .task 1 6 1000 demoOldEntry
    (by decide) (by decide) (by decide) (by decide) (by decide)

/-- Witness for C5 at a concrete store: stopping task 1 of `demoRunning`
succeeds, stopping task 2 (no running entry) fails and leaves the store
unchanged. -/
theorem stop_spec_witness :
    (∃ r, (stopTimer .task 1 1000 demoRunning).2 = .ok r)
    ∧ ((stopTimer .task 2 1000 demoRunning).2 = .error .notFound
        → (stopTimer .task 2 1000 demoRunning).1 = demoRunning) :=
  ⟨(stop_spec demoRunning .task 1 1000).2.2.1
      ⟨demoOldEntry, by decide, by decide, by decide⟩,
   (stop_spec demoRunning .task 2 1000).2.1⟩

theorem entryInv_stopEntry (now : Int) (e : TimeEntry) :
    EntryInv (stopEntry now e) := by
  simp [EntryInv, stopEntry]

/-- C9 (amended): every entry produced or left in the store by a start or
stop operation satisfies the shape invariant (`end_time` absent iff
running, `duration_us` absent iff running), provided the store satisfied
it before. -/
theorem timer_ops_preserve_entry_shape (s : Store) (op : TimerOp)
    (h : ∀ e ∈ s.entries, EntryInv e) :
    ∀ e ∈ (applyTimerOp s op).entries, EntryInv e := by
  cases op with
  | start et eid newId now =>
      simp only [applyTimerOp, startTimer]
      split
      · intro e he
        simp only [List.mem_append] at he
        rcases he with he | he
        · simp only [stopRunningTimers, List.mem_map] at he
          obtain ⟨x, hx, rfl⟩ := he
          split
          · exact entryInv_stopEntry now x
          · exact h x hx
        · simp only [List.mem_singleton] at he
          subst he
          simp [EntryInv]
      · exact h
  | stop et eid now =>
      simp only [applyTimerOp]
      cases hf : s.entries.find? (fun e =>
          decide (matchesEntity e et eid ∧ e.isRunning = true)) with
      | none =>
          have hstop : stopTimer et eid now s = (s, .error .notFound) := by
            unfold stopTimer
            rw [hf]
          rw [hstop]
          exact h
      | some r =>
          have hstop : stopTimer et eid now s
              = ({ s with entries := s.entries.map fun e =>
                    if e.id = r.id then stopEntry now e else e },
                 .ok (stopEntry now r)) := by
            unfold stopTimer
            rw [hf]
          rw [hstop]
          intro e he
          simp only [List.mem_map] at he
          obtain ⟨x, hx, rfl⟩ := he
          split
          · exact entryInv_stopEntry now x
          · exact h x hx

/-- C9 counterexample: a manual entry carrying only a `start_time` is
stored with `is_running = false` but no `end_time` and no `duration_us`,
violating "`end_time` absent iff `is_running`" (and likewise for
`duration_us`). -/
theorem manual_entry_breaks_entry_shape :
    (addManualEntry .task 1 7 (some 0) none none none demoBase).2
      = .ok cexManualEntry
    ∧ cexManualEntry
        ∈ (addManualEntry .task 1 7 (some 0) none none none demoBase).1.entries
    ∧ ¬ EntryInv cexManualEntry := by decide

/-- Witness for the amended C9: after stopping the running timer of
`demoRunning`, the closed entry in the store satisfies the shape
invariant. -/
theorem timer_ops_preserve_entry_shape_witness :
    EntryInv (stopEntry 1000 demoOldEntry) :=
  timer_ops_preserve_entry_shape demoRunning (.stop .task 1 1000)
    (by decide) (stopEntry 1000 demoOldEntry) (by decide)

/-- C7 (amended): for a manual entry with `start_time` and `end_time` and
no explicit duration, the stored `duration_us` is `end_time - start_time`
(in microseconds) whenever that difference is non-zero; an explicit
non-zero `duration_us` is stored as given, taking precedence over the
difference; a zero duration (computed or explicit) is stored as absent
because of the `finalDurationUs || null` coercion. -/
theorem manual_duration_derivation (s : Store) (et : EntityType)
    (eid newId : Nat) (st en : Int) (hex : entityExists s et eid) :
    (calculateDuration st en ≠ 0 →
      ∃ e, (addManualEntry et eid newId (some st) (some en) none none s).2
          = .ok e
        ∧ e.durationUs = some ((en - st) * 1000))
    ∧ (∀ d : Int, d ≠ 0 → ∀ en? : Option Int,
        ∃ e, (addManualEntry et eid newId (some st) en? (some d) none s).2
            = .ok e
          ∧ e.durationUs = some d)
    ∧ (∃ e, (addManualEntry et eid newId (some st) (some st) none none s).2
          = .ok e
        ∧ e.durationUs = none) := by
  refine ⟨?_, ?_, ?_⟩
  · intro hne
    simp only [addManualEntry, if_pos hex]
    refine ⟨_, rfl, ?_⟩
    show (if calculateDuration st en = 0 then none
        else some (calculateDuration st en)) = some ((en - st) * 1000)
    rw [if_neg hne]
    rfl
  · intro d hd en?
    simp only [addManualEntry, if_pos hex]
    refine ⟨_, rfl, ?_⟩
    have hder : deriveDuration st en? (some d) none = some d := by
      cases en? <;> rfl
    show falsyToNull (deriveDuration st en? (some d) none) = some d
    rw [hder]
    show (if d = 0 then none else some d) = some d
    rw [if_neg hd]
  · simp only [addManualEntry, if_pos hex]
    refine ⟨_, rfl, ?_⟩
    have hz : calculateDuration st st = 0 := by
      simp [calculateDuration]
    show (if calculateDuration st st = 0 then none
        else some (calculateDuration st st)) = none
    rw [if_pos hz]

/-- C7 counterexample: a manual entry whose `end_time` equals its
`start_time` should, per the claim, store `duration_us = end - start = 0`;
the code stores `NULL` instead (`0 || null` is `null`). -/
theorem manual_duration_zero_dropped :
    (∃ e, (addManualEntry .task 1 7 (some 0) (some 0) none none demoBase).2
        = .ok e ∧ e.durationUs = none)
    ∧ (∀ e, (addManualEntry .task 1 7 (some 0) (some 0) none none
        demoBase).2 = .ok e → e.durationUs ≠ some (calculateDuration 0 0)) := by
  constructor
  · exact ⟨_, rfl, rfl⟩
  · intro e he
    have hc : (addManualEntry .task 1 7 (some 0) (some 0) none none
          demoBase).2
        = .ok { id := 7, entityType := .task, entityId := 1, startTime := 0,
                endTime := some 0, durationUs := none,
                isRunning := false } := by decide
    rw [hc] at he
    injection he with h
    subst h
    decide

/-- Witness for the amended C7: the 90-minute scenario
(start 2024-01-01T00:00:00Z, end 2024-01-01T01:30:00Z, i.e. an end time
5,400,000 ms after the start) stores `duration_us = 5,400,000,000`. -/
theorem manual_duration_derivation_witness :
    (∃ e, (addManualEntry .task 1 7 (some 0) (some 5400000) none none
        demoBase).2 = .ok e
      ∧ e.durationUs = some ((5400000 - 0) * 1000))
    ∧ ((5400000 - 0 : Int) * 1000 = 5400000000) :=
  ⟨(manual_duration_derivation demoBase .task 1 7 0 5400000
      (by decide)).1 (by decide),
   by norm_num⟩

/-- C8 (amended): creating a time entry fails with `ValidationError`
exactly when `start_time` is missing; the entity type and id come from the
route path (an unknown entity yields `NotFoundError`, not
`ValidationError`); an `end_time` preceding `start_time` is accepted. -/
theorem create_validation_spec (s : Store) (et : EntityType)
    (eid newId : Nat) (st? en? du? dm? : Option Int) :
    (entityExists s et eid →
      ((addManualEntry et eid newId st? en? du? dm? s).2
          = .error .validation ↔ st? = none))
    ∧ (¬ entityExists s et eid →
        (addManualEntry et eid newId st? en? du? dm? s).2
          = .error .notFound) := by
  constructor
  · intro hex
    simp only [addManualEntry, if_pos hex]
    cases st? with
    | none => simp
    | some st => simp
  · intro hnex
    simp only [addManualEntry, if_neg hnex]

/-- C8 counterexample: a request whose `end_time` (50 ms) precedes its
`start_time` (100 ms) is accepted — no `ValidationError` — and the stored
entry has the negative `duration_us = -50,000`. -/
theorem create_accepts_reversed_interval :
    (addManualEntry .task 1 7 (some 100) (some 50) none none demoBase).2
      = .ok cexNegEntry
    ∧ cexNegEntry.durationUs = some (-50000)
    ∧ ((-50000 : Int) < 0) := by decide

/-- Witness for the amended C8: with the entity present, omitting
`start_time` yields `ValidationError`; with entity 99 missing, the result
is `NotFoundError`. -/
theorem create_validation_spec_witness :
    ((addManualEntry .task 1 7 none none none none demoBase).2
        = .error .validation)
    ∧ ((addManualEntry .task 99 7 (some 0) none none none demoBase).2
        = .error .notFound) :=
  ⟨((create_validation_spec demoBase .task 1 7 none none none none).1
      (by decide)).mpr rfl,
   (create_validation_spec demoBase .task 99 7 (some 0) none none none).2
      (by decide)⟩

/-! ### Generic facts about the CTE closure -/

theorem frontierStep_append (c : Nat → List Nat) (f1 f2 : List Nat) :
    frontierStep c (f1 ++ f2) = frontierStep c f1 ++ frontierStep c f2 := by
  simp [frontierStep]

theorem frontierStep_singleton (c : Nat → List Nat) (x : Nat) :
    frontierStep c [x] = c x := by
  simp [frontierStep]

theorem cteClosure_nil_frontier (c : Nat → List Nat) (n : Nat) :
    cteClosure c n [] = [] := by
  induction n with
  | zero => rfl
  | succ n ih => simpa [cteClosure, frontierStep] using ih

theorem sum_map_add_distrib (l : List Nat) (f h : Nat → Int) :
    (l.map f).sum + (l.map h).sum = (l.map fun x => f x + h x).sum := by
  induction l with
  | nil => simp
  | cons y t ih =>
      simp only [List.map_cons, List.sum_cons]
      rw [← ih]
      ring

theorem sum_cteClosure_append (c : Nat → List Nat) (g : Nat → Int)
    (n : Nat) : ∀ f1 f2 : List Nat,
      ((cteClosure c n (f1 ++ f2)).map g).sum
        = ((cteClosure c n f1).map g).sum
          + ((cteClosure c n f2).map g).sum := by
  induction n with
  | zero => intro f1 f2; simp [cteClosure]
  | succ n ih =>
      intro f1 f2
      simp only [cteClosure, frontierStep_append, List.map_append,
        List.sum_append]
      rw [ih (frontierStep c f1) (frontierStep c f2)]
      ring

theorem sum_cteClosure_flatten (c : Nat → List Nat) (g : Nat → Int)
    (n : Nat) (f : List Nat) :
    ((cteClosure c n f).map g).sum
      = (f.map fun x => ((cteClosure c n [x]).map g).sum).sum := by
  induction f with
  | nil => simp [cteClosure_nil_frontier]
  | cons x t ih =>
      have hx : x :: t = [x] ++ t := rfl
      rw [hx, sum_cteClosure_append]
      simp [ih]

theorem sum_cteClosure_singleton (c : Nat → List Nat) (g : Nat → Int) :
    ∀ (n : Nat) (x : Nat),
      g x + ((cteClosure c n [x]).map g).sum = specRoll c g n x := by
  intro n
  induction n with
  | zero => intro x; simp [cteClosure, specRoll]
  | succ n ih =>
      intro x
      simp only [cteClosure, specRoll, frontierStep_singleton,
        List.map_append, List.sum_append]
      rw [sum_cteClosure_flatten]
      congr 1
      rw [sum_map_add_distrib]
      exact congrArg List.sum (List.map_congr_left fun y _ => ih y)

theorem frontierIter_append (c : Nat → List Nat) :
    ∀ (n : Nat) (f1 f2 : List Nat),
      frontierIter c n (f1 ++ f2)
        = frontierIter c n f1 ++ frontierIter c n f2 := by
  intro n
  induction n with
  | zero => intro f1 f2; rfl
  | succ n ih =>
      intro f1 f2
      simp only [frontierIter, frontierStep_append]
      exact ih _ _

theorem frontierIter_eq_nil_of_mem (c : Nat → List Nat) (n : Nat)
    (f : List Nat) (x : Nat) (hx : x ∈ f)
    (h : frontierIter c n f = []) : frontierIter c n [x] = [] := by
  obtain ⟨s, t, rfl⟩ := List.append_of_mem hx
  rw [show s ++ x :: t = (s ++ [x]) ++ t by simp] at h
  rw [frontierIter_append, frontierIter_append] at h
  simp only [List.append_eq_nil] at h
  exact h.1.2

theorem cteClosure_stable (c : Nat → List Nat) :
    ∀ (n m : Nat) (f : List Nat), frontierIter c n f = [] →
      cteClosure c (n + m) f = cteClosure c n f := by
  intro n
  induction n with
  | zero =>
      intro m f h
      have hf : f = [] := h
      subst hf
      simp [cteClosure_nil_frontier]
  | succ n ih =>
      intro m f h
      rw [Nat.succ_add]
      simp only [cteClosure]
      rw [ih m (frontierStep c f) h]

theorem specRoll_stable (c : Nat → List Nat) (g : Nat → Int)
    (n m x : Nat) (h : frontierIter c n [x] = []) :
    specRoll c g (n + m) x = specRoll c g n x := by
  rw [← sum_cteClosure_singleton, ← sum_cteClosure_singleton,
    cteClosure_stable c n m [x] h]

theorem mem_cteClosure_child (c : Nat → List Nat) :
    ∀ (n : Nat) (f : List Nat), frontierIter c n f = [] →
      ∀ x ∈ cteClosure c n f, ∀ y ∈ c x, y ∈ cteClosure c n f := by
  intro n
  induction n with
  | zero =>
      intro f h x hx
      simp [cteClosure] at hx
  | succ n ih =>
      intro f h x hx y hy
      simp only [cteClosure, List.mem_append] at hx ⊢
      rcases hx with hx | hx
      · cases n with
        | zero =>
            have hstep : frontierStep c f = [] := h
            rw [hstep] at hx
            cases hx
        | succ n' =>
            right
            simp only [cteClosure, List.mem_append]
            left
            exact (List.mem_flatMap.mpr ⟨x, hx, hy⟩ :
              y ∈ frontierStep c (frontierStep c f))
      · right
        exact ih (frontierStep c f) h x hx y hy

/-- If a node's children list is empty, the recursive rollup degenerates
to the node's own value, for any fuel. -/
theorem specRoll_of_no_children (c : Nat → List Nat) (g : Nat → Int)
    (n x : Nat) (h : c x = []) : specRoll c g n x = g x := by
  cases n with
  | zero => rfl
  | succ n => simp [specRoll, h]

theorem directUs_nonneg (s : Store) (et : EntityType) (eid : Nat)
    (hnn : ∀ e ∈ s.entries, ∀ d : Int, e.durationUs = some d → 0 ≤ d) :
    0 ≤ directUs s et eid := by
  apply List.sum_nonneg
  intro x hx
  simp only [List.mem_map] at hx
  obtain ⟨e, he, rfl⟩ := hx
  have he' : e ∈ s.entries := List.mem_of_mem_filter he
  cases hd : e.durationUs with
  | none => simp
  | some d => simpa [hd] using hnn e he' d hd

theorem pos_clip_of_nonneg (u : Int) (h : 0 ≤ u) :
    (if u > 0 then u else 0) = u := by
  split <;> omega

theorem taskChildrenTimeUs_eq_sum (s : Store) (T : Nat)
    (hnn : ∀ e ∈ s.entries, ∀ d : Int, e.durationUs = some d → 0 ≤ d) :
    taskChildrenTimeUs s T
      = ((taskDescList s T).map fun d => directUs s .task d).sum := by
  unfold taskChildrenTimeUs
  congr 1
  apply List.map_congr_left
  intro d _
  exact pos_clip_of_nonneg _ (directUs_nonneg s .task d hnn)

/-- C2: for every task `T` (in a store whose task hierarchy is acyclic, so
that the descendants CTE terminates, and whose stored durations are
non-negative, as the spec's data model requires), the summary satisfies
`total_time_us(T) = directUs(T) + Σ total_time_us(Ci)` over the direct
children `Ci`; in particular, in the 3-level tree with direct times
root = 10, child = 20, grandchild = 5, the child's total is 25 and the
root's total is 35. -/
theorem taskSummary_rollup_additivity :
    (∀ (s : Store) (T : Nat) (now now' : Int),
      frontierIter (childTasksOf s.tasks) s.tasks.length [T] = [] →
      (∀ e ∈ s.entries, ∀ d : Int, e.durationUs = some d → 0 ≤ d) →
      (taskSummary s T now).totalTimeUs
        = directUs s .task T
          + ((childTasksOf s.tasks T).map fun c =>
              (taskSummary s c now').totalTimeUs).sum)
    ∧ (taskSummary demoTaskTree 2 0).totalTimeUs = 25
    ∧ (taskSummary demoTaskTree 1 0).totalTimeUs = 35 := by
  refine ⟨?_, by decide, by decide⟩
  intro s T now now' hterm hnn
  have htot : ∀ (T' : Nat) (nw : Int), (taskSummary s T' nw).totalTimeUs
      = directUs s .task T' + taskChildrenTimeUs s T' := fun _ _ => rfl
  cases hFc : s.tasks.length with
  | zero =>
      have htasks : s.tasks = [] := List.length_eq_zero.mp hFc
      rw [htot T now, taskChildrenTimeUs_eq_sum s T hnn]
      unfold taskDescList
      rw [hFc]
      simp [cteClosure, htasks, childTasksOf]
  | succ k =>
      rw [hFc] at hterm
      have hchild : ∀ c ∈ childTasksOf s.tasks T,
          (taskSummary s c now').totalTimeUs
            = specRoll (childTasksOf s.tasks)
                (fun d => directUs s .task d) k c := by
        intro c hc
        have hcnil : frontierIter (childTasksOf s.tasks) k [c] = [] := by
          apply frontierIter_eq_nil_of_mem _ k (childTasksOf s.tasks T) c hc
          have : frontierIter (childTasksOf s.tasks) (k + 1) [T]
              = frontierIter (childTasksOf s.tasks) k
                (childTasksOf s.tasks T) := by
            simp only [frontierIter, frontierStep_singleton]
          rw [← this]
          exact hterm
        rw [htot c now', taskChildrenTimeUs_eq_sum s c hnn]
        unfold taskDescList
        rw [hFc, sum_cteClosure_singleton,
          show k + 1 = k + 1 from rfl]
        exact specRoll_stable _ _ k 1 c hcnil
      rw [htot T now, taskChildrenTimeUs_eq_sum s T hnn]
      unfold taskDescList
      rw [hFc, sum_cteClosure_singleton]
      show specRoll _ _ (k + 1) T = _
      simp only [specRoll]
      congr 1
      exact congrArg List.sum
        (List.map_congr_left fun c hc => (hchild c hc).symm)

/-- Witness for C2: the general additivity equation instantiated at the
root of the 3-level demo tree. -/
theorem taskSummary_rollup_additivity_witness :
    (taskSummary demoTaskTree 1 0).totalTimeUs
      = directUs demoTaskTree .task 1
        + ((childTasksOf demoTaskTree.tasks 1).map fun c =>
            (taskSummary demoTaskTree c 0).totalTimeUs).sum :=
  taskSummary_rollup_additivity.1 demoTaskTree 1 0 0 (by decide) (by decide)

theorem filter_id_singleton (tasks : List Task) (t : Nat)
    (hnd : (tasks.map (·.id)).Nodup) (hex : ∃ row ∈ tasks, row.id = t) :
    ((tasks.filter fun x => decide (x.id = t)).map (·.id)) = [t] := by
  induction tasks with
  | nil => obtain ⟨row, hrow, -⟩ := hex; cases hrow
  | cons a l ih =>
      simp only [List.map_cons, List.nodup_cons] at hnd
      by_cases ha : a.id = t
      · have hnone : l.filter (fun x => decide (x.id = t)) = [] := by
          rw [List.filter_eq_nil_iff]
          intro x hx
          simp only [decide_eq_true_eq]
          intro hxt
          exact hnd.1 (List.mem_map.mpr ⟨x, hx, by rw [hxt, ha]⟩)
        simp [List.filter_cons, ha, hnone]
      · obtain ⟨row, hrow, hrowt⟩ := hex
        rcases List.mem_cons.mp hrow with rfl | hrow'
        · exact absurd hrowt ha
        · simp only [List.filter_cons, decide_eq_true_eq, ha,
            if_false]
          exact ih hnd.2 ⟨row, hrow', hrowt⟩

theorem taskTreeTotalUs_eq_specTaskTotal (s : Store) (t : Nat)
    (hnd : (s.tasks.map (·.id)).Nodup)
    (hex : ∃ row ∈ s.tasks, row.id = t) :
    taskTreeTotalUs s t = specTaskTotal s t := by
  unfold taskTreeTotalUs taskTreeIds
  rw [filter_id_singleton s.tasks t hnd hex]
  rw [List.map_append, List.sum_append]
  simp only [List.map_cons, List.map_nil, List.sum_cons, List.sum_nil]
  unfold specTaskTotal
  rw [← sum_cteClosure_singleton]
  ring

theorem taskTreeTotalUs_nonneg (s : Store) (t : Nat)
    (hnn : ∀ e ∈ s.entries, ∀ d : Int, e.durationUs = some d → 0 ≤ d) :
    0 ≤ taskTreeTotalUs s t := by
  apply List.sum_nonneg
  intro x hx
  simp only [List.mem_map] at hx
  obtain ⟨d, -, rfl⟩ := hx
  exact directUs_nonneg s .task d hnn

theorem subprojectDirectTasksUs_nonneg (s : Store) (p : Nat)
    (hnn : ∀ e ∈ s.entries, ∀ d : Int, e.durationUs = some d → 0 ≤ d) :
    0 ≤ subprojectDirectTasksUs s p := by
  apply List.sum_nonneg
  intro x hx
  simp only [List.mem_map] at hx
  obtain ⟨d, -, rfl⟩ := hx
  exact directUs_nonneg s .task d hnn

theorem projectTasksTimeUs_eq_spec (s : Store) (P : Nat)
    (hnn : ∀ e ∈ s.entries, ∀ d : Int, e.durationUs = some d → 0 ≤ d)
    (hnd : (s.tasks.map (·.id)).Nodup) :
    projectTasksTimeUs s P
      = ((tasksOfProject s P).map fun t => specTaskTotal s t).sum := by
  unfold projectTasksTimeUs
  congr 1
  apply List.map_congr_left
  intro t ht
  have hex : ∃ row ∈ s.tasks, row.id = t := by
    simp only [tasksOfProject, List.mem_map, List.mem_filter] at ht
    obtain ⟨row, ⟨hrow, -⟩, rfl⟩ := ht
    exact ⟨row, hrow, rfl⟩
  rw [pos_clip_of_nonneg _ (taskTreeTotalUs_nonneg s t hnn)]
  exact taskTreeTotalUs_eq_specTaskTotal s t hnd hex

theorem tasks_term_eq_direct (s : Store) (x : Nat)
    (hx : ∀ t ∈ s.tasks, t.projectId = x → childTasksOf s.tasks t.id = []) :
    ((tasksOfProject s x).map fun t => specTaskTotal s t).sum
      = subprojectDirectTasksUs s x := by
  unfold subprojectDirectTasksUs
  congr 1
  apply List.map_congr_left
  intro t ht
  simp only [tasksOfProject, List.mem_map, List.mem_filter,
    decide_eq_true_eq] at ht
  obtain ⟨row, ⟨hrow, hproj⟩, rfl⟩ := ht
  unfold specTaskTotal
  exact specRoll_of_no_children _ _ _ _ (hx row hrow hproj)

theorem specProjectTotal_eq_specRoll (s : Store) (P : Nat)
    (hpterm : frontierIter (childProjectsOf s.projects)
        s.projects.length [P] = [])
    (hdc : ∀ d ∈ projDescList s P, ∀ t ∈ s.tasks, t.projectId = d →
        childTasksOf s.tasks t.id = []) :
    ∀ (n : Nat), ∀ x ∈ projDescList s P,
      specProjectTotal s n x
        = specRoll (childProjectsOf s.projects)
            (fun d => directUs s .project d + subprojectDirectTasksUs s d)
            n x := by
  intro n
  induction n with
  | zero =>
      intro x hx
      show directUs s .project x
          + ((tasksOfProject s x).map fun t => specTaskTotal s t).sum
        = directUs s .project x + subprojectDirectTasksUs s x
      rw [tasks_term_eq_direct s x (hdc x hx)]
  | succ n ih =>
      intro x hx
      show directUs s .project x
          + ((tasksOfProject s x).map fun t => specTaskTotal s t).sum
          + ((childProjectsOf s.projects x).map (specProjectTotal s n)).sum
        = directUs s .project x + subprojectDirectTasksUs s x
          + ((childProjectsOf s.projects x).map
              (specRoll (childProjectsOf s.projects)
                (fun d => directUs s .project d
                  + subprojectDirectTasksUs s d) n)).sum
      rw [tasks_term_eq_direct s x (hdc x hx)]
      congr 1
      apply congrArg List.sum
      apply List.map_congr_left
      intro c hc
      exact ih c (mem_cteClosure_child _ _ _ hpterm x hx c hc)

theorem projectSubprojectsTimeUs_eq_spec (s : Store) (P : Nat)
    (hnn : ∀ e ∈ s.entries, ∀ d : Int, e.durationUs = some d → 0 ≤ d)
    (hpterm : frontierIter (childProjectsOf s.projects)
        s.projects.length [P] = [])
    (hdc : ∀ d ∈ projDescList s P, ∀ t ∈ s.tasks, t.projectId = d →
        childTasksOf s.tasks t.id = []) :
    projectSubprojectsTimeUs s P
      = ((childProjectsOf s.projects P).map
          (specProjectTotal s s.projects.length)).sum := by
  have hclip : projectSubprojectsTimeUs s P
      = ((projDescList s P).map fun d =>
          directUs s .project d + subprojectDirectTasksUs s d).sum := by
    unfold projectSubprojectsTimeUs
    congr 1
    apply List.map_congr_left
    intro d _
    exact pos_clip_of_nonneg _
      (add_nonneg (directUs_nonneg s .project d hnn)
        (subprojectDirectTasksUs_nonneg s d hnn))
  rw [hclip]
  cases hFc : s.projects.length with
  | zero =>
      have hproj : s.projects = [] := List.length_eq_zero.mp hFc
      unfold projDescList
      rw [hFc]
      simp [cteClosure, hproj, childProjectsOf]
  | succ k =>
      rw [hFc] at hpterm
      set g := fun d => directUs s .project d + subprojectDirectTasksUs s d
        with hg
      have hsing := sum_cteClosure_singleton
        (childProjectsOf s.projects) g (k + 1) P
      have hdef : specRoll (childProjectsOf s.projects) g (k + 1) P
          = g P + ((childProjectsOf s.projects P).map
              (specRoll (childProjectsOf s.projects) g k)).sum := rfl
      have hsum : ((cteClosure (childProjectsOf s.projects) (k + 1)
            [P]).map g).sum
          = ((childProjectsOf s.projects P).map
              (specRoll (childProjectsOf s.projects) g k)).sum := by
        have h1 := hsing
        rw [hdef] at h1
        omega
      unfold projDescList
      rw [hFc, hsum]
      apply congrArg List.sum
      apply List.map_congr_left
      intro c hc
      have hcnil : frontierIter (childProjectsOf s.projects) k [c] = [] := by
        apply frontierIter_eq_nil_of_mem _ k
          (childProjectsOf s.projects P) c hc
        have hiter : frontierIter (childProjectsOf s.projects) (k + 1) [P]
            = frontierIter (childProjectsOf s.projects) k
              (childProjectsOf s.projects P) := by
          simp only [frontierIter, frontierStep_singleton]
        rw [← hiter]
        exact hpterm
      have hstab : specRoll (childProjectsOf s.projects) g (k + 1) c
          = specRoll (childProjectsOf s.projects) g k c :=
        specRoll_stable _ _ k 1 c hcnil
      have hcmem : c ∈ projDescList s P := by
        unfold projDescList
        rw [hFc]
        simp only [cteClosure, List.mem_append]
        left
        rw [frontierStep_singleton]
        exact hc
      rw [← hstab]
      have hpterm' : frontierIter (childProjectsOf s.projects)
          s.projects.length [P] = [] := by rw [hFc]; exact hpterm
      rw [← hFc]
      exact (specProjectTotal_eq_specRoll s P hpterm' hdc
        s.projects.length c hcmem).symm

/-- C3 (amended): the project summary satisfies
`total = directUs(project, P) + Σ taskTotal(t) over tasks of P +
Σ projectTotal(c) over child projects of P` provided that, in addition to
acyclicity, unique task ids and non-negative durations, no task assigned
to a descendant project of `P` has child tasks — because the code rolls
descendant projects' tasks up by their direct time only, not by their task
subtree. -/
theorem projectSummary_rollup_amended (s : Store) (P : Nat) (now : Int)
    (hnn : ∀ e ∈ s.entries, ∀ d : Int, e.durationUs = some d → 0 ≤ d)
    (hnd : (s.tasks.map (·.id)).Nodup)
    (hpterm : frontierIter (childProjectsOf s.projects)
        s.projects.length [P] = [])
    (hdc : ∀ d ∈ projDescList s P, ∀ t ∈ s.tasks, t.projectId = d →
        childTasksOf s.tasks t.id = []) :
    (projectSummary s P now).totalTimeUs
      = directUs s .project P
        + ((tasksOfProject s P).map fun t => specTaskTotal s t).sum
        + ((childProjectsOf s.projects P).map
            (specProjectTotal s s.projects.length)).sum := by
  have htot : (projectSummary s P now).totalTimeUs
      = directUs s .project P + projectTasksTimeUs s P
        + projectSubprojectsTimeUs s P := rfl
  rw [htot, projectTasksTimeUs_eq_spec s P hnn hnd,
    projectSubprojectsTimeUs_eq_spec s P hnn hpterm hdc]

/-- C3 counterexample: in `cexProjStore` (task 10 of child project 2 has a
subtask 11 carrying 7 μs), the summary's `total_time_us` for project 1 is
0, while the spec formula `directUs + Σ taskTotal + Σ projectTotal(child)`
gives 7: the code rolls descendant projects' tasks up by direct time
only. -/
theorem projectSummary_rollup_mismatch :
    (projectSummary cexProjStore 1 0).totalTimeUs = 0
    ∧ directUs cexProjStore .project 1
        + ((tasksOfProject cexProjStore 1).map fun t =>
            specTaskTotal cexProjStore t).sum
        + ((childProjectsOf cexProjStore.projects 1).map
            (specProjectTotal cexProjStore
              cexProjStore.projects.length)).sum = 7
    ∧ (projectSummary cexProjStore 1 0).totalTimeUs
        ≠ directUs cexProjStore .project 1
          + ((tasksOfProject cexProjStore 1).map fun t =>
              specTaskTotal cexProjStore t).sum
          + ((childProjectsOf cexProjStore.projects 1).map
              (specProjectTotal cexProjStore
                cexProjStore.projects.length)).sum := by decide

/-- Witness for the amended C3: the scenario store (project P with direct
time 0, task T with 100, child project P2 with 50) satisfies all
hypotheses and yields `total_time_us = 150`. -/
theorem projectSummary_rollup_amended_witness :
    (projectSummary demoProjTree 1 0).totalTimeUs
      = directUs demoProjTree .project 1
        + ((tasksOfProject demoProjTree 1).map fun t =>
            specTaskTotal demoProjTree t).sum
        + ((childProjectsOf demoProjTree.projects 1).map
            (specProjectTotal demoProjTree
              demoProjTree.projects.length)).sum
    ∧ (projectSummary demoProjTree 1 0).totalTimeUs = 150 :=
  ⟨projectSummary_rollup_amended demoProjTree 1 0 (by decide) (by decide)
      (by decide) (by decide),
   by decide⟩

theorem sum_durations_eq_settled (l : List TimeEntry)
    (h : ∀ e ∈ l, e.isRunning = true → e.durationUs = none) :
    (l.map fun e => e.durationUs.getD 0).sum
      = ((l.filter fun e => !e.isRunning).map
          fun e => e.durationUs.getD 0).sum := by
  induction l with
  | nil => rfl
  | cons e t ih =>
      have ht : ∀ x ∈ t, x.isRunning = true → x.durationUs = none :=
        fun x hx => h x (List.mem_cons_of_mem e hx)
      by_cases he : e.isRunning = true
      · have hd : e.durationUs = none := h e (List.mem_cons_self e t) he
        simp [List.filter_cons, he, hd, ih ht]
      · have he' : e.isRunning = false := by simpa using he
        simp [List.filter_cons, he', ih ht]

theorem find?_eq_of_countP_le_one (l : List TimeEntry)
    (p : TimeEntry → Bool) (hcount : l.countP p ≤ 1) (r : TimeEntry)
    (hr : r ∈ l) (hpr : p r = true) : l.find? p = some r := by
  induction l with
  | nil => cases hr
  | cons a t ih =>
      rw [List.countP_cons] at hcount
      by_cases hpa : p a = true
      · rw [List.find?_cons_of_pos _ hpa]
        rcases List.mem_cons.mp hr with rfl | hrt
        · rfl
        · exfalso
          have hpos : 0 < t.countP p := List.countP_pos_iff.mpr ⟨r, hrt, hpr⟩
          rw [if_pos hpa] at hcount
          omega
      · rw [List.find?_cons_of_neg _ hpa]
        rcases List.mem_cons.mp hr with rfl | hrt
        · exact absurd hpr hpa
        · rw [if_neg hpa] at hcount
          exact ih (by omega) hrt

theorem runningCount_eq_countP_entriesFor (s : Store) (et : EntityType)
    (eid : Nat) :
    runningCount s et eid
      = (entriesFor s et eid).countP (fun e => e.isRunning) := by
  unfold runningCount entriesFor
  rw [List.countP_filter]
  apply List.countP_congr
  intro e _
  cases hr : e.isRunning <;> by_cases hm : matchesEntity e et eid <;>
    simp [hr, hm]

/-- C6: in every summary (given the spec's data-model invariants that a
running entry has no recorded `duration_us` and that at most one entry per
entity is running), a currently running entry contributes 0 to the settled
`direct_time_us` — the total equals the sum over the non-running entries —
and its live elapsed time is reported separately as
`current_session_us = now - start_time` (in microseconds). -/
theorem summary_running_contributes_zero (s : Store) (T P : Nat)
    (now : Int)
    (hinv : ∀ e ∈ s.entries, e.isRunning = true → e.durationUs = none)
    (hone : runningCount s .task T ≤ 1)
    (honeP : runningCount s .project P ≤ 1) :
    ((taskSummary s T now).directTimeUs
        = (((entriesFor s .task T).filter fun e => !e.isRunning).map
            fun e => e.durationUs.getD 0).sum)
    ∧ (∀ r ∈ s.entries, matchesEntity r .task T → r.isRunning = true →
        (taskSummary s T now).currentSessionUs
          = (now - r.startTime) * 1000)
    ∧ ((projectSummary s P now).directTimeUs
        = (((entriesFor s .project P).filter fun e => !e.isRunning).map
            fun e => e.durationUs.getD 0).sum)
    ∧ (∀ r ∈ s.entries, matchesEntity r .project P → r.isRunning = true →
        (projectSummary s P now).currentSessionUs
          = (now - r.startTime) * 1000) := by
  have hsub : ∀ (et : EntityType) (eid : Nat),
      ∀ e ∈ entriesFor s et eid, e.isRunning = true →
        e.durationUs = none :=
    fun et eid e he => hinv e (List.mem_of_mem_filter he)
  refine ⟨?_, ?_, ?_, ?_⟩
  · exact sum_durations_eq_settled _ (hsub .task T)
  · intro r hr hm hrun
    have hrf : r ∈ entriesFor s .task T :=
      List.mem_filter.mpr ⟨hr, by simpa using hm⟩
    have hcount : (entriesFor s .task T).countP (fun e => e.isRunning)
        ≤ 1 := by
      rw [← runningCount_eq_countP_entriesFor]
      exact hone
    have hfind : (entriesFor s .task T).find? (fun e => e.isRunning)
        = some r :=
      find?_eq_of_countP_le_one _ _ hcount r hrf hrun
    show (match (entriesFor s .task T).find? (fun e => e.isRunning) with
        | some rr => calculateDuration rr.startTime now
        | none => 0) = (now - r.startTime) * 1000
    rw [hfind]
    rfl
  · exact sum_durations_eq_settled _ (hsub .project P)
  · intro r hr hm hrun
    have hrf : r ∈ entriesFor s .project P :=
      List.mem_filter.mpr ⟨hr, by simpa using hm⟩
    have hcount : (entriesFor s .project P).countP (fun e => e.isRunning)
        ≤ 1 := by
      rw [← runningCount_eq_countP_entriesFor]
      exact honeP
    have hfind : (entriesFor s .project P).find? (fun e => e.isRunning)
        = some r :=
      find?_eq_of_countP_le_one _ _ hcount r hrf hrun
    show (match (entriesFor s .project P).find? (fun e => e.isRunning) with
        | some rr => calculateDuration rr.startTime now
        | none => 0) = (now - r.startTime) * 1000
    rw [hfind]
    rfl

/-- Witness for C6 at `demoMixed`: the running entry (started at 200 ms)
contributes nothing to `direct_time_us` and yields
`current_session_us = (1000 - 200) * 1000`. -/
theorem summary_running_contributes_zero_witness :
    ((taskSummary demoMixed 1 1000).directTimeUs
        = (((entriesFor demoMixed .task 1).filter fun e => !e.isRunning).map
            fun e => e.durationUs.getD 0).sum)
    ∧ (taskSummary demoMixed 1 1000).currentSessionUs
        = (1000 - 200) * 1000 := by
  have h := summary_running_contributes_zero demoMixed 1 1 1000
    (by decide) (by decide) (by decide)
  exact ⟨h.1, h.2.1 ⟨5, .task, 1, 200, none, none, true⟩
    (by decide) (by decide) (by decide)⟩

/-! ### Duration codec: character and numeral facts -/

theorem digitChar_facts (d : Nat) (h : d < 10) :
    isDigitChar (Nat.digitChar d) = true
    ∧ Char.toLower (Nat.digitChar d) = Nat.digitChar d
    ∧ isUnitChar (Nat.digitChar d) = false
    ∧ isSpaceChar (Nat.digitChar d) = false
    ∧ Nat.digitChar d ≠ '.'
    ∧ digitVal (Nat.digitChar d) = d := by
  interval_cases d <;> exact ⟨by decide, by decide, by decide, by decide,
    by decide, by decide⟩

theorem natChars_ne_nil (n : Nat) : natChars n ≠ [] := by
  unfold natChars
  split
  · simp
  · rename_i hn
    simp only [ne_eq, List.reverse_eq_nil_iff, List.map_eq_nil_iff]
    exact fun hc => hn (Nat.digits_eq_nil_iff_eq_zero.mp hc)

theorem mem_natChars (n : Nat) (c : Char) (hc : c ∈ natChars n) :
    ∃ d, d < 10 ∧ c = Nat.digitChar d := by
  unfold natChars at hc
  split at hc
  · simp only [List.mem_singleton] at hc
    exact ⟨0, by norm_num, hc⟩
  · simp only [List.mem_reverse, List.mem_map] at hc
    obtain ⟨d, hd, rfl⟩ := hc
    exact ⟨d, Nat.digits_lt_base (by norm_num) hd, rfl⟩

theorem natChars_facts (n : Nat) : ∀ c ∈ natChars n,
    isDigitChar c = true ∧ Char.toLower c = c ∧ isUnitChar c = false
    ∧ isSpaceChar c = false ∧ c ≠ '.' := by
  intro c hc
  obtain ⟨d, hd, rfl⟩ := mem_natChars n c hc
  have h := digitChar_facts d hd
  exact ⟨h.1, h.2.1, h.2.2.1, h.2.2.2.1, h.2.2.2.2.1⟩

theorem digitVal_digitChar (d : Nat) (h : d < 10) :
    digitVal (Nat.digitChar d) = d :=
  (digitChar_facts d h).2.2.2.2.2

theorem foldr_digits_val (L : List Nat) (h : ∀ d ∈ L, d < 10) :
    L.foldr (fun d a => 10 * a + digitVal (Nat.digitChar d)) 0
      = Nat.ofDigits 10 L := by
  induction L with
  | nil => rfl
  | cons d t ih =>
      simp only [List.foldr_cons]
      rw [ih (fun x hx => h x (List.mem_cons_of_mem _ hx)),
        digitVal_digitChar d (h d (List.mem_cons_self d t)),
        Nat.ofDigits_cons]
      ring

theorem tokenIntVal_natChars (n : Nat) : tokenIntVal (natChars n) = n := by
  unfold natChars
  split
  · rename_i hn
    subst hn
    decide
  · unfold tokenIntVal
    rw [← List.map_reverse, List.foldl_map, List.foldl_reverse]
    have := foldr_digits_val (Nat.digits 10 n)
      (fun d hd => Nat.digits_lt_base (by norm_num) hd)
    rw [show (fun (x : Nat) (y : Nat) => 10 * y + digitVal (Nat.digitChar x))
        = (fun x y => (fun (a : Nat) (c : Char) => 10 * a + digitVal c) y
            (Nat.digitChar x)) from rfl] at this
    rw [show (Nat.digits 10 n).foldr
        (fun x y => 10 * y + digitVal (Nat.digitChar x)) 0
        = (Nat.digits 10 n).foldr
            (fun d a => 10 * a + digitVal (Nat.digitChar d)) 0 from rfl]
    rw [foldr_digits_val (Nat.digits 10 n)
      (fun d hd => Nat.digits_lt_base (by norm_num) hd)]
    exact Nat.ofDigits_digits 10 n

theorem takeWhile_append_all (p : Char → Bool) (l rest : List Char)
    (hl : ∀ c ∈ l, p c = true)
    (hrest : ∀ c, rest.head? = some c → p c = false) :
    (l ++ rest).takeWhile p = l ∧ (l ++ rest).dropWhile p = rest := by
  induction l with
  | nil =>
      cases rest with
      | nil => exact ⟨rfl, rfl⟩
      | cons c t =>
          simp only [List.nil_append, List.takeWhile_cons,
            List.dropWhile_cons, hrest c rfl]
          exact ⟨rfl, rfl⟩
  | cons a l' ih =>
      have ha := hl a (List.mem_cons_self a l')
      have ih' := ih (fun c hc => hl c (List.mem_cons_of_mem a hc))
      simp only [List.cons_append, List.takeWhile_cons, List.dropWhile_cons,
        ha, if_true]
      exact ⟨by rw [ih'.1], by rw [ih'.2]⟩

theorem lowerChars_eq_self (l : List Char)
    (h : ∀ c ∈ l, Char.toLower c = c) : lowerChars l = l := by
  unfold lowerChars
  induction l with
  | nil => rfl
  | cons a t ih =>
      simp only [List.map_cons, h a (List.mem_cons_self a t)]
      rw [ih (fun c hc => h c (List.mem_cons_of_mem a hc))]

theorem trimChars_eq_self (l : List Char)
    (h1 : ∀ c, l.head? = some c → isSpaceChar c = false)
    (h2 : ∀ c, l.getLast? = some c → isSpaceChar c = false) :
    trimChars l = l := by
  unfold trimChars
  have hd : l.dropWhile isSpaceChar = l := by
    cases l with
    | nil => rfl
    | cons a t =>
        rw [List.dropWhile_cons, if_neg]
        simp [h1 a rfl]
  rw [hd]
  have hd2 : l.reverse.dropWhile isSpaceChar = l.reverse := by
    cases hrev : l.reverse with
    | nil => rfl
    | cons a t =>
        rw [List.dropWhile_cons, if_neg]
        have hlast : l.getLast? = some a := by
          rw [← List.head?_reverse, hrev]
          rfl
        simp [h2 a hlast]
  rw [hd2, List.reverse_reverse]

theorem readFrac_no_dot (r : List Char)
    (h : ∀ c, r.head? = some c → c ≠ '.') : readFrac r = ([], r) := by
  cases r with
  | nil => rfl
  | cons a t =>
      have ha : a ≠ '.' := h a rfl
      rw [readFrac.eq_def]
      split
      · rename_i heq
        injection heq with h1 h2
        exact absurd h1 ha
      · rfl

theorem scanAux_nil : scanAux [] = [] := by
  rw [scanAux.eq_def]

theorem scanAux_skip (c : Char) (l : List Char) (h : isDigitChar c = false) :
    scanAux (c :: l) = scanAux l := by
  rw [scanAux.eq_def]
  simp [h]

theorem scanAux_token (ds us rest : List Char)
    (hds : ds ≠ []) (hdsall : ∀ c ∈ ds, isDigitChar c = true)
    (hus : us ≠ []) (husall : ∀ c ∈ us, isUnitChar c = true)
    (hush : ∀ c, us.head? = some c →
      isDigitChar c = false ∧ c ≠ '.' ∧ isSpaceChar c = false)
    (hrest : ∀ c, rest.head? = some c → isUnitChar c = false) :
    scanAux (ds ++ us ++ rest) = (tokenVal ds [], us) :: scanAux rest := by
  cases ds with
  | nil => exact absurd rfl hds
  | cons d ds' =>
      have hd := hdsall d (List.mem_cons_self d ds')
      have hush' : ∀ c, (us ++ rest).head? = some c →
          isDigitChar c = false ∧ c ≠ '.' ∧ isSpaceChar c = false := by
        intro c hc
        cases us with
        | nil => exact absurd rfl hus
        | cons u us' =>
            have hcu : c = u := by
              simpa using hc.symm
            subst hcu
            exact hush c rfl
      have hspan : List.takeWhile isDigitChar (d :: (ds' ++ (us ++ rest)))
            = d :: ds'
          ∧ List.dropWhile isDigitChar (d :: (ds' ++ (us ++ rest)))
            = us ++ rest := by
        have h0 := takeWhile_append_all isDigitChar (d :: ds')
          (us ++ rest) hdsall (fun c hc => (hush' c hc).1)
        simpa using h0
      have hfrac : readFrac (us ++ rest) = ([], us ++ rest) :=
        readFrac_no_dot _ (fun c hc => (hush' c hc).2.1)
      have hnospace : (us ++ rest).dropWhile isSpaceChar = us ++ rest := by
        cases hu : (us ++ rest) with
        | nil => rfl
        | cons u t =>
            rw [List.dropWhile_cons, if_neg]
            have := (hush' u (by rw [hu]; rfl)).2.2
            simp [this]
      have huspan := takeWhile_append_all isUnitChar us rest husall hrest
      rw [show (d :: ds') ++ us ++ rest = d :: (ds' ++ (us ++ rest)) by
        simp]
      rw [scanAux.eq_def]
      simp only [hd, if_true]
      rw [hspan.1, hspan.2, hfrac]
      simp only [hnospace]
      rw [huspan.1, huspan.2]
      split
      · rename_i hcontra
        exact absurd hcontra hus
      · rfl

theorem readFrac_dot (r' : List Char) :
    readFrac ('.' :: r')
      = (if r'.takeWhile isDigitChar = [] then (([] : List Char), '.' :: r')
         else (r'.takeWhile isDigitChar, r'.dropWhile isDigitChar)) := rfl

theorem scanAux_token_frac (ds fs us rest : List Char)
    (hds : ds ≠ []) (hdsall : ∀ c ∈ ds, isDigitChar c = true)
    (hfs : fs ≠ []) (hfsall : ∀ c ∈ fs, isDigitChar c = true)
    (hus : us ≠ []) (husall : ∀ c ∈ us, isUnitChar c = true)
    (hush : ∀ c, us.head? = some c →
      isDigitChar c = false ∧ c ≠ '.' ∧ isSpaceChar c = false)
    (hrest : ∀ c, rest.head? = some c → isUnitChar c = false) :
    scanAux (ds ++ '.' :: (fs ++ (us ++ rest)))
      = (tokenVal ds fs, us) :: scanAux rest := by
  cases ds with
  | nil => exact absurd rfl hds
  | cons d ds' =>
      have hd := hdsall d (List.mem_cons_self d ds')
      have hush' : ∀ c, (us ++ rest).head? = some c →
          isDigitChar c = false ∧ c ≠ '.' ∧ isSpaceChar c = false := by
        intro c hc
        cases us with
        | nil => exact absurd rfl hus
        | cons u us' =>
            have hcu : c = u := by
              simpa using hc.symm
            subst hcu
            exact hush c rfl
      have hfspan : List.takeWhile isDigitChar (fs ++ (us ++ rest)) = fs
          ∧ List.dropWhile isDigitChar (fs ++ (us ++ rest)) = us ++ rest :=
        takeWhile_append_all isDigitChar fs (us ++ rest) hfsall
          (fun c hc => (hush' c hc).1)
      have hspan : List.takeWhile isDigitChar
            (d :: (ds' ++ '.' :: (fs ++ (us ++ rest)))) = d :: ds'
          ∧ List.dropWhile isDigitChar
            (d :: (ds' ++ '.' :: (fs ++ (us ++ rest))))
            = '.' :: (fs ++ (us ++ rest)) := by
        have h0 := takeWhile_append_all isDigitChar (d :: ds')
          ('.' :: (fs ++ (us ++ rest))) hdsall
          (fun c hc => by
            have : c = '.' := by simpa using hc.symm
            subst this
            decide)
        simpa using h0
      have hfrac : readFrac ('.' :: (fs ++ (us ++ rest)))
          = (fs, us ++ rest) := by
        rw [readFrac_dot, hfspan.1, hfspan.2, if_neg hfs]
      have hnospace : (us ++ rest).dropWhile isSpaceChar = us ++ rest := by
        cases hu : (us ++ rest) with
        | nil => rfl
        | cons u t =>
            rw [List.dropWhile_cons, if_neg]
            have := (hush' u (by rw [hu]; rfl)).2.2
            simp [this]
      have huspan := takeWhile_append_all isUnitChar us rest husall hrest
      rw [show (d :: ds') ++ '.' :: (fs ++ (us ++ rest))
          = d :: (ds' ++ '.' :: (fs ++ (us ++ rest))) by simp]
      rw [scanAux.eq_def]
      simp only [hd, if_true]
      rw [hspan.1, hspan.2, hfrac]
      simp only [hnospace]
      rw [huspan.1, huspan.2]
      split
      · rename_i hcontra
        exact absurd hcontra hus
      · rfl

theorem tokenVal_nofrac (ds : List Char) :
    tokenVal ds [] = (tokenIntVal ds : ℚ) := by
  simp [tokenVal, tokenIntVal]

theorem jsRound_intCast (z : Int) : jsRound ((z : ℚ)) = z := by
  unfold jsRound
  rw [Int.floor_int_add]
  norm_num

theorem jsRound_natCast (m : Nat) : jsRound ((m : ℚ)) = (m : Int) := by
  rw [show ((m : ℚ)) = (((m : Int) : ℚ)) by push_cast; ring]
  exact jsRound_intCast (m : Int)

theorem natChars_head_not_space (a : Nat) (X : List Char) :
    ∀ c, (natChars a ++ X).head? = some c → isSpaceChar c = false := by
  intro c hc
  cases hna : natChars a with
  | nil => exact absurd hna (natChars_ne_nil a)
  | cons x t =>
      rw [hna, List.cons_append, List.head?_cons] at hc
      have hxc : c = x := by simpa using hc.symm
      rw [hxc]
      exact (natChars_facts a x (by
        rw [hna]; exact List.mem_cons_self _ _)).2.2.2.1

theorem getLast_append_not_space (L u : List Char) (hu : u ≠ [])
    (h : ∀ c, u.getLast? = some c → isSpaceChar c = false) :
    ∀ c, (L ++ u).getLast? = some c → isSpaceChar c = false := by
  intro c hc
  rw [List.getLast?_append] at hc
  cases hg : u.getLast? with
  | none =>
      exact absurd (List.getLast?_eq_none_iff.mp hg) hu
  | some y =>
      rw [hg] at hc
      have hyc : y = c := Option.some_inj.mp hc
      rw [← hyc]
      exact h y hg

theorem append_ne_trivial (L u : List Char) (hL : L ≠ []) (hu : u ≠ []) :
    ¬(L ++ u = [] ∨ L ++ u = ['0']) := by
  rintro (h | h)
  · simp [hL] at h
  · have hlen := congrArg List.length h
    simp only [List.length_append, List.length_singleton] at hlen
    have hL1 : 0 < L.length := List.length_pos.mpr hL
    have hu1 : 0 < u.length := List.length_pos.mpr hu
    omega

theorem scanAux_single (a : Nat) (u : List Char) (hune : u ≠ [])
    (huall : ∀ c ∈ u, isUnitChar c = true)
    (huhead : ∀ c, u.head? = some c →
      isDigitChar c = false ∧ c ≠ '.' ∧ isSpaceChar c = false) :
    scanAux (natChars a ++ u) = [(tokenVal (natChars a) [], u)] := by
  have h0 := scanAux_token (natChars a) u [] (natChars_ne_nil a)
    (fun c hc => (natChars_facts a c hc).1) hune huall huhead
    (fun c hc => by cases hc)
  rw [scanAux_nil] at h0
  simpa using h0

theorem parse_one_unit (a : Nat) (u : List Char) (U : Nat)
    (huU : unitToUs u = some U) (hune : u ≠ [])
    (huall : ∀ c ∈ u, isUnitChar c = true ∧ Char.toLower c = c)
    (huhead : ∀ c, u.head? = some c →
      isDigitChar c = false ∧ c ≠ '.' ∧ isSpaceChar c = false)
    (hulast : ∀ c, u.getLast? = some c → isSpaceChar c = false) :
    parseDurationStringToUs ⟨natChars a ++ u⟩
      = some (((a * U : Nat) : Int)) := by
  have hlower : lowerChars (natChars a ++ u) = natChars a ++ u := by
    apply lowerChars_eq_self
    intro c hc
    rcases List.mem_append.mp hc with hc | hc
    · exact (natChars_facts a c hc).2.1
    · exact (huall c hc).2
  have htrim : trimChars (natChars a ++ u) = natChars a ++ u :=
    trimChars_eq_self _ (natChars_head_not_space a u)
      (getLast_append_not_space _ u hune hulast)
  have hscan := scanAux_single a u hune (fun c hc => (huall c hc).1) huhead
  simp only [parseDurationStringToUs]
  rw [hlower, htrim]
  rw [if_neg (append_ne_trivial (natChars a) u (natChars_ne_nil a) hune)]
  rw [hscan]
  rw [if_neg (by simp)]
  have haccum : accumTokens [(tokenVal (natChars a) [], u)]
      = some (tokenVal (natChars a) [] * (U : ℚ) + 0) := by
    simp [accumTokens, huU]
  rw [haccum]
  simp only [Option.map_some']
  congr 1
  rw [tokenVal_nofrac, tokenIntVal_natChars]
  rw [show ((a : ℚ) * (U : ℚ) + 0 : ℚ) = ((a * U : Nat) : ℚ) by
    push_cast; ring]
  exact jsRound_natCast (a * U)

theorem parse_pair (a b : Nat) (u1 u2 : List Char) (U V : Nat)
    (hu1U : unitToUs u1 = some U) (hu2V : unitToUs u2 = some V)
    (h1ne : u1 ≠ []) (h2ne : u2 ≠ [])
    (h1all : ∀ c ∈ u1, isUnitChar c = true ∧ Char.toLower c = c)
    (h2all : ∀ c ∈ u2, isUnitChar c = true ∧ Char.toLower c = c)
    (h1head : ∀ c, u1.head? = some c →
      isDigitChar c = false ∧ c ≠ '.' ∧ isSpaceChar c = false)
    (h2head : ∀ c, u2.head? = some c →
      isDigitChar c = false ∧ c ≠ '.' ∧ isSpaceChar c = false)
    (h2last : ∀ c, u2.getLast? = some c → isSpaceChar c = false) :
    parseDurationStringToUs
        ⟨natChars a ++ u1 ++ (' ' :: (natChars b ++ u2))⟩
      = some (((a * U + b * V : Nat) : Int)) := by
  have hlower : lowerChars (natChars a ++ u1 ++ (' ' :: (natChars b ++ u2)))
      = natChars a ++ u1 ++ (' ' :: (natChars b ++ u2)) := by
    apply lowerChars_eq_self
    intro c hc
    simp only [List.mem_append, List.mem_cons] at hc
    rcases hc with (hc | hc) | rfl | hc
    · exact (natChars_facts a c hc).2.1
    · exact (h1all c hc).2
    · decide
    · rcases hc with hc | hc
      · exact (natChars_facts b c hc).2.1
      · exact (h2all c hc).2
  have hshape : natChars a ++ u1 ++ (' ' :: (natChars b ++ u2))
      = (natChars a ++ (u1 ++ (' ' :: natChars b))) ++ u2 := by simp
  have htrim : trimChars (natChars a ++ u1 ++ (' ' :: (natChars b ++ u2)))
      = natChars a ++ u1 ++ (' ' :: (natChars b ++ u2)) := by
    apply trimChars_eq_self
    · have h0 := natChars_head_not_space a
        (u1 ++ (' ' :: (natChars b ++ u2)))
      intro c hc
      apply h0 c
      rw [← hc]
      congr 1
      simp
    · intro c hc
      apply getLast_append_not_space
        (natChars a ++ (u1 ++ (' ' :: natChars b))) u2 h2ne h2last c
      rw [← hc]
      congr 1
      simp
  have hscan : scanAux (natChars a ++ u1 ++ (' ' :: (natChars b ++ u2)))
      = [(tokenVal (natChars a) [], u1), (tokenVal (natChars b) [], u2)] := by
    have h1 := scanAux_token (natChars a) u1 (' ' :: (natChars b ++ u2))
      (natChars_ne_nil a) (fun c hc => (natChars_facts a c hc).1) h1ne
      (fun c hc => (h1all c hc).1) h1head
      (fun c hc => by
        have : c = ' ' := by simpa using hc.symm
        subst this
        decide)
    rw [scanAux_skip ' ' _ (by decide)] at h1
    rw [scanAux_single b u2 h2ne (fun c hc => (h2all c hc).1) h2head] at h1
    exact h1
  simp only [parseDurationStringToUs]
  rw [hlower, htrim]
  rw [if_neg (by
    rw [hshape]
    exact append_ne_trivial _ u2 (by simp [natChars_ne_nil a]) h2ne)]
  rw [hscan]
  rw [if_neg (by simp)]
  have haccum : accumTokens
      [(tokenVal (natChars a) [], u1), (tokenVal (natChars b) [], u2)]
      = some (tokenVal (natChars a) [] * (U : ℚ)
          + (tokenVal (natChars b) [] * (V : ℚ) + 0)) := by
    simp [accumTokens, hu1U, hu2V]
  rw [haccum]
  simp only [Option.map_some']
  congr 1
  rw [tokenVal_nofrac, tokenVal_nofrac, tokenIntVal_natChars,
    tokenIntVal_natChars]
  rw [show ((a : ℚ) * (U : ℚ) + ((b : ℚ) * (V : ℚ) + 0) : ℚ)
      = ((a * U + b * V : Nat) : ℚ) by push_cast; ring]
  exact jsRound_natCast (a * U + b * V)

theorem parse_frac_seconds (a d : Nat) (hd : d < 10) :
    parseDurationStringToUs ⟨natChars a ++ '.' :: Nat.digitChar d :: ['s']⟩
      = some (((a * SECOND + d * 100000 : Nat) : Int)) := by
  have hfacts := digitChar_facts d hd
  have hlower : lowerChars (natChars a ++ '.' :: Nat.digitChar d :: ['s'])
      = natChars a ++ '.' :: Nat.digitChar d :: ['s'] := by
    apply lowerChars_eq_self
    intro c hc
    simp only [List.mem_append, List.mem_cons] at hc
    rcases hc with hc | rfl | rfl | rfl | hc
    · exact (natChars_facts a c hc).2.1
    · decide
    · exact hfacts.2.1
    · decide
    · cases hc
  have htrim : trimChars (natChars a ++ '.' :: Nat.digitChar d :: ['s'])
      = natChars a ++ '.' :: Nat.digitChar d :: ['s'] := by
    apply trimChars_eq_self
    · exact natChars_head_not_space a _
    · intro c hc
      apply getLast_append_not_space
        (natChars a ++ ['.', Nat.digitChar d]) ['s'] (by simp)
        (fun c' hc' => by
          have : c' = 's' := by simpa using hc'.symm
          subst this
          decide) c
      rw [← hc]
      congr 1
      simp
  have hscan : scanAux (natChars a ++ '.' :: Nat.digitChar d :: ['s'])
      = [(tokenVal (natChars a) [Nat.digitChar d], ['s'])] := by
    have h0 := scanAux_token_frac (natChars a) [Nat.digitChar d] ['s'] []
      (natChars_ne_nil a) (fun c hc => (natChars_facts a c hc).1)
      (by simp) (fun c hc => by
        have : c = Nat.digitChar d := by simpa using hc
        subst this
        exact hfacts.1)
      (by simp) (by decide)
      (fun c hc => by
        have : c = 's' := by simpa using hc.symm
        subst this
        decide)
      (fun c hc => by cases hc)
    rw [scanAux_nil] at h0
    have hsh : natChars a ++ '.' :: Nat.digitChar d :: ['s']
        = natChars a ++ '.' :: ([Nat.digitChar d] ++ (['s'] ++ [])) := by
      simp
    rw [hsh]
    exact h0
  simp only [parseDurationStringToUs]
  rw [hlower, htrim]
  rw [if_neg (by
    rw [show natChars a ++ '.' :: Nat.digitChar d :: ['s']
        = (natChars a ++ ['.', Nat.digitChar d]) ++ ['s'] by simp]
    exact append_ne_trivial _ ['s'] (by simp) (by simp))]
  rw [hscan]
  rw [if_neg (by simp)]
  have haccum : accumTokens [(tokenVal (natChars a) [Nat.digitChar d], ['s'])]
      = some (tokenVal (natChars a) [Nat.digitChar d] * (SECOND : ℚ) + 0) := by
    have hs : unitToUs ['s'] = some SECOND := rfl
    simp [accumTokens, hs]
  rw [haccum]
  simp only [Option.map_some']
  congr 1
  have hval : tokenVal (natChars a) [Nat.digitChar d]
      = (a : ℚ) + (d : ℚ) / 10 := by
    unfold tokenVal
    rw [tokenIntVal_natChars]
    have : tokenIntVal [Nat.digitChar d] = d := by
      unfold tokenIntVal
      simp [digitVal_digitChar d hd]
    rw [this]
    norm_num
  rw [hval]
  rw [show (((a : ℚ) + (d : ℚ) / 10) * (SECOND : ℚ) + 0 : ℚ)
      = ((a * SECOND + d * 100000 : Nat) : ℚ) by
    unfold SECOND
    push_cast
    field_simp
    ring]
  exact jsRound_natCast (a * SECOND + d * 100000)

theorem formatDurationUs_pos (x : Nat) (hx0 : x ≠ 0) :
    formatDurationUs (x : Int) = ⟨formatAbsChars x⟩ := by
  unfold formatDurationUs
  rw [if_neg (by omega), if_neg (by omega)]
  rw [Int.natAbs_ofNat]

theorem parse_format_two_unit (x a b U V : Nat) (u1 u2 : List Char)
    (hfmt : formatAbsChars x
      = natChars a ++ u1
        ++ (if 0 < b then ' ' :: (natChars b ++ u2) else []))
    (hx0 : x ≠ 0)
    (hu1U : unitToUs u1 = some U) (hu2V : unitToUs u2 = some V)
    (h1ne : u1 ≠ []) (h2ne : u2 ≠ [])
    (h1all : ∀ c ∈ u1, isUnitChar c = true ∧ Char.toLower c = c)
    (h2all : ∀ c ∈ u2, isUnitChar c = true ∧ Char.toLower c = c)
    (h1head : ∀ c, u1.head? = some c →
      isDigitChar c = false ∧ c ≠ '.' ∧ isSpaceChar c = false)
    (h2head : ∀ c, u2.head? = some c →
      isDigitChar c = false ∧ c ≠ '.' ∧ isSpaceChar c = false)
    (h1last : ∀ c, u1.getLast? = some c → isSpaceChar c = false)
    (h2last : ∀ c, u2.getLast? = some c → isSpaceChar c = false) :
    parseDurationStringToUs (formatDurationUs (x : Int))
      = some (((a * U + b * V : Nat) : Int)) := by
  rw [formatDurationUs_pos x hx0, hfmt]
  by_cases hb : 0 < b
  · rw [if_pos hb]
    exact parse_pair a b u1 u2 U V hu1U hu2V h1ne h2ne h1all h2all
      h1head h2head h2last
  · rw [if_neg hb]
    have hb0 : b = 0 := by omega
    rw [show natChars a ++ u1 ++ ([] : List Char) = natChars a ++ u1 by
      simp]
    rw [parse_one_unit a u1 U hu1U h1ne h1all h1head h1last]
    congr 1
    subst hb0
    norm_num

/-! ### The shape of `formatAbsChars` on each magnitude branch -/

theorem formatAbs_ms (x : Nat) (h2 : x < SECOND) :
    formatAbsChars x = natChars (x / MILLISECOND) ++ ['m', 's'] := by
  simp only [formatAbsChars]
  rw [if_pos h2]
  have hms : (breakdownUs x).milliseconds = x / MILLISECOND := by
    show x % YEAR % MONTH % WEEK % DAY % HOUR % MINUTE % SECOND
        / MILLISECOND = x / MILLISECOND
    unfold YEAR MONTH WEEK DAY HOUR MINUTE SECOND MILLISECOND at *
    omega
  rw [hms]

theorem formatAbs_sec (x : Nat) (h1 : SECOND ≤ x) (h2 : x < MINUTE) :
    formatAbsChars x
      = (if x % SECOND / MILLISECOND = 0
         then natChars (x / SECOND) ++ ['s']
         else
           if ((x / SECOND) * 1000 + x % SECOND / MILLISECOND + 50) / 100
               % 10 = 0
           then natChars (((x / SECOND) * 1000 + x % SECOND / MILLISECOND
               + 50) / 100 / 10) ++ ['s']
           else natChars (((x / SECOND) * 1000 + x % SECOND / MILLISECOND
               + 50) / 100 / 10)
             ++ '.' :: Nat.digitChar (((x / SECOND) * 1000
                 + x % SECOND / MILLISECOND + 50) / 100 % 10)
             :: ['s']) := by
  simp only [formatAbsChars]
  rw [if_neg (by omega), if_pos h2]
  have hsec : (breakdownUs x).seconds = x / SECOND := by
    show x % YEAR % MONTH % WEEK % DAY % HOUR % MINUTE / SECOND
        = x / SECOND
    unfold YEAR MONTH WEEK DAY HOUR MINUTE SECOND at *
    omega
  have hms : (breakdownUs x).milliseconds = x % SECOND / MILLISECOND := by
    show x % YEAR % MONTH % WEEK % DAY % HOUR % MINUTE % SECOND
        / MILLISECOND = x % SECOND / MILLISECOND
    unfold YEAR MONTH WEEK DAY HOUR MINUTE SECOND MILLISECOND at *
    omega
  rw [hsec, hms]

theorem formatAbs_min (x : Nat) (h1 : MINUTE ≤ x) (h2 : x < HOUR) :
    formatAbsChars x
      = natChars (x / MINUTE) ++ ['m']
        ++ (if 0 < x % MINUTE / SECOND
            then ' ' :: (natChars (x % MINUTE / SECOND) ++ ['s'])
            else []) := by
  simp only [formatAbsChars]
  rw [if_neg (by unfold SECOND MINUTE at *; omega),
    if_neg (by omega), if_pos h2]
  have hmin : (breakdownUs x).minutes = x / MINUTE := by
    show x % YEAR % MONTH % WEEK % DAY % HOUR / MINUTE = x / MINUTE
    unfold YEAR MONTH WEEK DAY HOUR MINUTE at *
    omega
  have hsec : (breakdownUs x).seconds = x % MINUTE / SECOND := by
    show x % YEAR % MONTH % WEEK % DAY % HOUR % MINUTE / SECOND
        = x % MINUTE / SECOND
    unfold YEAR MONTH WEEK DAY HOUR MINUTE SECOND at *
    omega
  rw [hmin, hsec]

theorem formatAbs_hour (x : Nat) (h1 : HOUR ≤ x) (h2 : x < DAY) :
    formatAbsChars x
      = natChars (x / HOUR) ++ ['h']
        ++ (if 0 < x % HOUR / MINUTE
            then ' ' :: (natChars (x % HOUR / MINUTE) ++ ['m'])
            else []) := by
  simp only [formatAbsChars]
  rw [if_neg (by unfold SECOND HOUR at *; omega),
    if_neg (by unfold MINUTE HOUR at *; omega),
    if_neg (by omega), if_pos h2]
  have hh : (breakdownUs x).hours = x / HOUR := by
    show x % YEAR % MONTH % WEEK % DAY / HOUR = x / HOUR
    unfold YEAR MONTH WEEK DAY HOUR at *
    omega
  have hmin : (breakdownUs x).minutes = x % HOUR / MINUTE := by
    show x % YEAR % MONTH % WEEK % DAY % HOUR / MINUTE
        = x % HOUR / MINUTE
    unfold YEAR MONTH WEEK DAY HOUR MINUTE at *
    omega
  rw [hh, hmin]

theorem formatAbs_day (x : Nat) (h1 : DAY ≤ x) (h2 : x < WEEK) :
    formatAbsChars x
      = natChars (x / DAY) ++ ['d']
        ++ (if 0 < x % DAY / HOUR
            then ' ' :: (natChars (x % DAY / HOUR) ++ ['h'])
            else []) := by
  simp only [formatAbsChars]
  rw [if_neg (by unfold SECOND DAY at *; omega),
    if_neg (by unfold MINUTE DAY at *; omega),
    if_neg (by unfold HOUR DAY at *; omega),
    if_neg (by omega), if_pos h2]
  have hd : (breakdownUs x).days = x / DAY := by
    show x % YEAR % MONTH % WEEK / DAY = x / DAY
    unfold YEAR MONTH WEEK DAY at *
    omega
  have hh : (breakdownUs x).hours = x % DAY / HOUR := by
    show x % YEAR % MONTH % WEEK % DAY / HOUR = x % DAY / HOUR
    unfold YEAR MONTH WEEK DAY HOUR at *
    omega
  rw [hd, hh]

theorem formatAbs_week (x : Nat) (h1 : WEEK ≤ x) (h2 : x < MONTH) :
    formatAbsChars x
      = natChars (x / WEEK) ++ ['w']
        ++ (if 0 < x % WEEK / DAY
            then ' ' :: (natChars (x % WEEK / DAY) ++ ['d'])
            else []) := by
  simp only [formatAbsChars]
  rw [if_neg (by unfold SECOND WEEK at *; omega),
    if_neg (by unfold MINUTE WEEK at *; omega),
    if_neg (by unfold HOUR WEEK at *; omega),
    if_neg (by unfold DAY WEEK at *; omega),
    if_neg (by omega), if_pos h2]
  have hw : (breakdownUs x).weeks = x / WEEK := by
    show x % YEAR % MONTH / WEEK = x / WEEK
    unfold YEAR MONTH WEEK at *
    omega
  have hd : (breakdownUs x).days = x % WEEK / DAY := by
    show x % YEAR % MONTH % WEEK / DAY = x % WEEK / DAY
    unfold YEAR MONTH WEEK DAY at *
    omega
  rw [hw, hd]

theorem formatAbs_month (x : Nat) (h1 : MONTH ≤ x) (h2 : x < YEAR) :
    formatAbsChars x
      = natChars (x / MONTH) ++ ['m', 'o']
        ++ (if 0 < x % MONTH / WEEK
            then ' ' :: (natChars (x % MONTH / WEEK) ++ ['w'])
            else []) := by
  simp only [formatAbsChars]
  rw [if_neg (by unfold SECOND MONTH at *; omega),
    if_neg (by unfold MINUTE MONTH at *; omega),
    if_neg (by unfold HOUR MONTH at *; omega),
    if_neg (by unfold DAY MONTH at *; omega),
    if_neg (by unfold WEEK MONTH at *; omega),
    if_neg (by omega), if_pos h2]
  have hmo : (breakdownUs x).months = x / MONTH := by
    show x % YEAR / MONTH = x / MONTH
    unfold YEAR MONTH at *
    omega
  have hw : (breakdownUs x).weeks = x % MONTH / WEEK := by
    show x % YEAR % MONTH / WEEK = x % MONTH / WEEK
    unfold YEAR MONTH WEEK at *
    omega
  rw [hmo, hw]

theorem formatAbs_year (x : Nat) (h1 : YEAR ≤ x) :
    formatAbsChars x
      = natChars (x / YEAR) ++ ['y']
        ++ (if 0 < x % YEAR / MONTH
            then ' ' :: (natChars (x % YEAR / MONTH) ++ ['m', 'o'])
            else []) := by
  simp only [formatAbsChars]
  rw [if_neg (by unfold SECOND YEAR at *; omega),
    if_neg (by unfold MINUTE YEAR at *; omega),
    if_neg (by unfold HOUR YEAR at *; omega),
    if_neg (by unfold DAY YEAR at *; omega),
    if_neg (by unfold WEEK YEAR at *; omega),
    if_neg (by unfold MONTH YEAR at *; omega),
    if_neg (by omega)]
  have hy : (breakdownUs x).years = x / YEAR := rfl
  have hmo : (breakdownUs x).months = x % YEAR / MONTH := rfl
  rw [hy, hmo]

/-- C10: for every non-negative integer microsecond value `x`,
`formatDurationUs x` is accepted by `parseDurationStringToUs`, and the
parsed value differs from `x` by at most one unit-step of the coarsest
unit used in the formatted string. -/
theorem duration_format_parse_roundtrip (x : Nat) :
    ∃ v : Int,
      parseDurationStringToUs (formatDurationUs (x : Int)) = some v
      ∧ (v - (x : Int)).natAbs ≤ coarseUnitStep x := by
  by_cases h0 : x = 0
  · subst h0
    refine ⟨0, ?_, by decide⟩
    have hfmt : formatDurationUs ((0 : Nat) : Int) = ⟨['0', 'μ', 's']⟩ :=
      rfl
    rw [hfmt]
    have hsh : (['0', 'μ', 's'] : List Char) = natChars 0 ++ ['μ', 's'] :=
      rfl
    rw [hsh]
    have h := parse_one_unit 0 ['μ', 's'] MICROSECOND (by decide)
      (by decide) (by decide) (by decide) (by decide)
    simpa using h
  · by_cases hB1 : x < SECOND
    · refine ⟨(((x / MILLISECOND) * MILLISECOND : Nat) : Int), ?_, ?_⟩
      · rw [formatDurationUs_pos x h0, formatAbs_ms x hB1]
        exact parse_one_unit (x / MILLISECOND) ['m', 's'] MILLISECOND
          (by decide) (by decide) (by decide) (by decide) (by decide)
      · have hstep : coarseUnitStep x = MILLISECOND := by
          unfold coarseUnitStep
          rw [if_neg h0, if_pos hB1]
        rw [hstep]
        unfold MILLISECOND SECOND at *
        omega
    · by_cases hB2 : x < MINUTE
      · have hfmt := formatAbs_sec x (by omega) hB2
        have hstep : coarseUnitStep x = SECOND := by
          unfold coarseUnitStep
          rw [if_neg h0, if_neg hB1, if_pos hB2]
        by_cases hms : x % SECOND / MILLISECOND = 0
        · refine ⟨(((x / SECOND) * SECOND : Nat) : Int), ?_, ?_⟩
          · rw [formatDurationUs_pos x h0, hfmt, if_pos hms]
            exact parse_one_unit (x / SECOND) ['s'] SECOND (by decide)
              (by decide) (by decide) (by decide) (by decide)
          · rw [hstep]
            unfold SECOND MINUTE at *
            omega
        · set t := ((x / SECOND) * 1000 + x % SECOND / MILLISECOND + 50)
              / 100 with ht
          by_cases ht10 : t % 10 = 0
          · refine ⟨(((t / 10) * SECOND : Nat) : Int), ?_, ?_⟩
            · rw [formatDurationUs_pos x h0, hfmt, if_neg hms, if_pos ht10]
              exact parse_one_unit (t / 10) ['s'] SECOND (by decide)
                (by decide) (by decide) (by decide) (by decide)
            · rw [hstep]
              unfold SECOND MINUTE MILLISECOND at *
              omega
          · refine ⟨(((t / 10) * SECOND + (t % 10) * 100000 : Nat) : Int),
              ?_, ?_⟩
            · rw [formatDurationUs_pos x h0, hfmt, if_neg hms, if_neg ht10]
              exact parse_frac_seconds (t / 10) (t % 10) (by omega)
            · rw [hstep]
              unfold SECOND MINUTE MILLISECOND at *
              omega
      · by_cases hB3 : x < HOUR
        · refine ⟨(((x / MINUTE) * MINUTE
              + (x % MINUTE / SECOND) * SECOND : Nat) : Int), ?_, ?_⟩
          · exact parse_format_two_unit x (x / MINUTE)
              (x % MINUTE / SECOND) MINUTE SECOND ['m'] ['s']
              (formatAbs_min x (by omega) hB3) h0 (by decide) (by decide)
              (by decide) (by decide) (by decide) (by decide) (by decide)
              (by decide) (by decide) (by decide)
          · have hstep : coarseUnitStep x = MINUTE := by
              unfold coarseUnitStep
              rw [if_neg h0, if_neg hB1, if_neg hB2, if_pos hB3]
            rw [hstep]
            unfold SECOND MINUTE HOUR at *
            omega
        · by_cases hB4 : x < DAY
          · refine ⟨(((x / HOUR) * HOUR
                + (x % HOUR / MINUTE) * MINUTE : Nat) : Int), ?_, ?_⟩
            · exact parse_format_two_unit x (x / HOUR)
                (x % HOUR / MINUTE) HOUR MINUTE ['h'] ['m']
                (formatAbs_hour x (by omega) hB4) h0 (by decide)
                (by decide) (by decide) (by decide) (by decide)
                (by decide) (by decide) (by decide) (by decide) (by decide)
            · have hstep : coarseUnitStep x = HOUR := by
                unfold coarseUnitStep
                rw [if_neg h0, if_neg hB1, if_neg hB2, if_neg hB3,
                  if_pos hB4]
              rw [hstep]
              unfold MINUTE HOUR DAY at *
              omega
          · by_cases hB5 : x < WEEK
            · refine ⟨(((x / DAY) * DAY
                  + (x % DAY / HOUR) * HOUR : Nat) : Int), ?_, ?_⟩
              · exact parse_format_two_unit x (x / DAY)
                  (x % DAY / HOUR) DAY HOUR ['d'] ['h']
                  (formatAbs_day x (by omega) hB5) h0 (by decide)
                  (by decide) (by decide) (by decide) (by decide)
                  (by decide) (by decide) (by decide) (by decide)
                  (by decide)
              · have hstep : coarseUnitStep x = DAY := by
                  unfold coarseUnitStep
                  rw [if_neg h0, if_neg hB1, if_neg hB2, if_neg hB3,
                    if_neg hB4, if_pos hB5]
                rw [hstep]
                unfold HOUR DAY WEEK at *
                omega
            · by_cases hB6 : x < MONTH
              · refine ⟨(((x / WEEK) * WEEK
                    + (x % WEEK / DAY) * DAY : Nat) : Int), ?_, ?_⟩
                · exact parse_format_two_unit x (x / WEEK)
                    (x % WEEK / DAY) WEEK DAY ['w'] ['d']
                    (formatAbs_week x (by omega) hB6) h0 (by decide)
                    (by decide) (by decide) (by decide) (by decide)
                    (by decide) (by decide) (by decide) (by decide)
                    (by decide)
                · have hstep : coarseUnitStep x = WEEK := by
                    unfold coarseUnitStep
                    rw [if_neg h0, if_neg hB1, if_neg hB2, if_neg hB3,
                      if_neg hB4, if_neg hB5, if_pos hB6]
                  rw [hstep]
                  unfold DAY WEEK MONTH at *
                  omega
              · by_cases hB7 : x < YEAR
                · refine ⟨(((x / MONTH) * MONTH
                      + (x % MONTH / WEEK) * WEEK : Nat) : Int), ?_, ?_⟩
                  · exact parse_format_two_unit x (x / MONTH)
                      (x % MONTH / WEEK) MONTH WEEK ['m', 'o'] ['w']
                      (formatAbs_month x (by omega) hB7) h0 (by decide)
                      (by decide) (by decide) (by decide) (by decide)
                      (by decide) (by decide) (by decide) (by decide)
                      (by decide)
                  · have hstep : coarseUnitStep x = MONTH := by
                      unfold coarseUnitStep
                      rw [if_neg h0, if_neg hB1, if_neg hB2, if_neg hB3,
                        if_neg hB4, if_neg hB5, if_neg hB6, if_pos hB7]
                    rw [hstep]
                    unfold WEEK MONTH YEAR at *
                    omega
                · refine ⟨(((x / YEAR) * YEAR
                      + (x % YEAR / MONTH) * MONTH : Nat) : Int), ?_, ?_⟩
                  · exact parse_format_two_unit x (x / YEAR)
                      (x % YEAR / MONTH) YEAR MONTH ['y'] ['m', 'o']
                      (formatAbs_year x (by omega)) h0 (by decide)
                      (by decide) (by decide) (by decide) (by decide)
                      (by decide) (by decide) (by decide) (by decide)
                      (by decide)
                  · have hstep : coarseUnitStep x = YEAR := by
                      unfold coarseUnitStep
                      rw [if_neg h0, if_neg hB1, if_neg hB2, if_neg hB3,
                        if_neg hB4, if_neg hB5, if_neg hB6, if_neg hB7]
                    rw [hstep]
                    unfold MONTH YEAR at *
                    omega

end Celestask
